import Mathlib

/-!
Verification of the TwitchObserver session/subscription engine against its
specification.  Each Python source construct that a claim depends on is
shallowly embedded as an executable Lean definition; machine-level Python
behaviour (dict iteration invalidation, `del` on a missing key, dataclass
field defaults, `str.split`) is modelled explicitly where a claim turns on it.
-/

namespace TwitchObserver

/-! ### stream.py — `StreamSession.start_session` (reconnect budget)

The ingestion loop is

    max_reconnect_attempts = self._max_reconnect_attempts
    while max_reconnect_attempts > 0:
        await self._start_chat_session()
        self._log.warning('Trying to reconnect...')
        max_reconnect_attempts -= 1
    raise ObserverError('Websocket connection error')

`_start_chat_session` returns normally in both failure shapes: a
`WSServerHandshakeError` is caught inside it (logged only), and a receive /
socket error or clean close simply ends `_recv_chat_messages`.  Hence every
call consumes exactly one iteration of the while loop, whatever the outcome
kind.  We model the environment as a stream of attempt outcomes. -/

/-- Outcome of one call to `_start_chat_session`: the handshake failed (the
exception is caught inside and the call returns), or the connection was made
and the receive loop later ended on a socket error or clean close. -/
inductive AttemptOutcome
  | handshakeFailed
  | recvEnded
deriving DecidableEq, Repr

/-- Result of `start_session`: the outcomes of the attempts it made, in order,
and the message of the `ObserverError` it raised after exhausting the budget. -/
structure SessionRun where
  attempts : List AttemptOutcome
  errorMsg : String
deriving Repr, DecidableEq

/-- The while loop of `start_session`: `next` is the index of the next attempt,
the `Nat` argument is the remaining `max_reconnect_attempts` counter.  The
decrement does not inspect the outcome, mirroring that handshake failures and
receive errors consume the same counter. -/
def startSessionLoop (outcomes : Nat → AttemptOutcome) (next : Nat) : Nat → List AttemptOutcome
  | 0 => []
  | Nat.succ k => outcomes next :: startSessionLoop outcomes (next + 1) k

/-- Embedding of `StreamSession.start_session`: performs the attempts permitted
by the budget and then raises `ObserverError('Websocket connection error')`. -/
def start_session (outcomes : Nat → AttemptOutcome) (maxReconnects : Nat) : SessionRun :=
  { attempts := startSessionLoop outcomes 0 maxReconnects
    errorMsg := "Websocket connection error" }

/-! ### sender.py — `_post` and `_dispatch_data` -/

/-- Terminal outcome of one `_post` call. `delivered` is the `status == 200`
return; `warned` is the non-200, non-429, sub-400 branch that logs a warning
and returns; `failed st` is the `raise ObserverError(f'Post error: {st}')`
branch taken for any other status `>= 400`. -/
inductive PostOutcome
  | delivered
  | warned (status : Nat)
  | failed (status : Nat)
deriving DecidableEq, Repr

/-- Whether an outcome is the raised `ObserverError` (the only shape that the
caller's `isinstance(result, Exception)` check logs as a failure). -/
def PostOutcome.isFailure : PostOutcome → Bool
  | .failed _ => true
  | _ => false

/-- Embedding of `MessageSender._post`.  `resps i` is the HTTP status of the
`i`-th request attempt for this one send.  The `while True:` loop has no bound,
so we index by fuel: `none` means the loop is still retrying (it has consumed
`fuel` responses without reaching a terminal branch — only possible on a run
of 429 responses). -/
def postSteps (resps : Nat → Nat) : Nat → Nat → Option PostOutcome
  | _, 0 => none
  | i, Nat.succ fuel =>
    let st := resps i
    if st = 200 then some .delivered
    else if st = 429 then postSteps resps (i + 1) fuel
    else if 400 ≤ st then some (.failed st)
    else some (.warned st)

/-- Result of `_dispatch_data`: the gathered per-recipient outcomes (in
recipient order, `return_exceptions=True` turning each raise into a value) and
the chat ids whose outcome the final loop logged as a failure. -/
structure DispatchResult where
  results : List (Nat × Option PostOutcome)
  failureLog : List Nat
deriving DecidableEq, Repr

/-- The `isinstance(result, Exception)` test of the logging loop at the end of
`_dispatch_data`: only a raised `ObserverError` counts, a still-retrying send
(`none`) has produced no result value at all. -/
def loggedAsFailure : Option PostOutcome → Bool
  | some o => o.isFailure
  | none => false

/-- Embedding of `MessageSender._dispatch_data`: one `_post` task per
recipient (`resps u` is recipient `u`'s own response stream), gathered with
`return_exceptions=True`, then each exception result is logged. -/
def dispatch_data (users : List Nat) (resps : Nat → Nat → Nat) (fuel : Nat) : DispatchResult :=
  let results := users.map (fun u => (u, postSteps (resps u) 0 fuel))
  { results := results
    failureLog := (results.filter (fun r => loggedAsFailure r.2)).map (·.1) }

/-- Response environment for the C8 witness: recipient 2's request is answered
403, every other recipient's request is answered 200. -/
def c8WitnessResps : Nat → Nat → Nat :=
  fun u _ => if u = 2 then 403 else 200

/-! ### Python string primitives used by command_parse.py

Strings are modelled as `List Char`.  `str.split` (whitespace mode, with and
without `maxsplit`) follows CPython's `split_whitespace`: skip whitespace,
take a word, at most `maxcount` words split off, and a trailing remainder —
kept verbatim including trailing whitespace — appended only if it contains a
non-whitespace character. -/

/-- ASCII whitespace as recognised by `str.split()` / `str.isspace()`. -/
def pyIsSpace (c : Char) : Bool :=
  c = ' ' || c = '\t' || c = '\n' || c = '\x0b' || c = '\x0c' || c = '\r'

/-- Skip a run of leading whitespace. -/
def dropSpaces : List Char → List Char
  | [] => []
  | c :: cs => if pyIsSpace c then dropSpaces cs else c :: cs

/-- Split off the maximal leading run of non-whitespace characters. -/
def takeWord : List Char → List Char × List Char
  | [] => ([], [])
  | c :: cs =>
    if pyIsSpace c then ([], c :: cs)
    else ((c :: (takeWord cs).1), (takeWord cs).2)

/-- CPython `split_whitespace(s, maxcount)`: the body of `str.split` in
whitespace mode.  When the split budget is exhausted, the remainder (starting
at its first non-whitespace character, trailing whitespace kept) is the final
element; a whitespace-only remainder is dropped. -/
def pySplitLoop : Nat → List Char → List (List Char)
  | 0, s =>
    match dropSpaces s with
    | [] => []
    | c :: cs => [c :: cs]
  | Nat.succ k, s =>
    match dropSpaces s with
    | [] => []
    | c :: cs => (takeWord (c :: cs)).1 :: pySplitLoop k (takeWord (c :: cs)).2

/-- `s.split(maxsplit=1)`. -/
def pySplit1 (s : List Char) : List (List Char) := pySplitLoop 1 s

/-- `s.split()`: unbounded whitespace split.  A budget of `s.length` splits is
never exhausted (each split consumes at least one character), so this equals
CPython's effectively unbounded `maxcount`. -/
def pySplit (s : List Char) : List (List Char) := pySplitLoop s.length s

/-- `s.endswith(c)` for a single-character suffix. -/
def pyEndsWith (l : List Char) (c : Char) : Bool := l.getLast? == some c

/-- Value of a digit string. -/
def digitsVal (ds : List Char) : Nat :=
  ds.foldl (fun a c => a * 10 + (c.toNat - 48)) 0

/-- Split off the maximal leading run of decimal digits. -/
def takeDigits : List Char → List Char × List Char
  | [] => ([], [])
  | c :: cs =>
    if c.isDigit then ((c :: (takeDigits cs).1), (takeDigits cs).2)
    else ([], c :: cs)

/-- `float(s)`, modelled over the rationals: optional surrounding whitespace
and sign, then `digits[.digits]` or `.digits`, with an optional signed decimal
exponent; `none` is the `ValueError` raise.  Python's special spellings
(`inf`, `nan`, digit underscores) are omitted — the claims depend only on the
raise-versus-return split of `float`, not on the accepted value set. -/
def pyFloat (s : List Char) : Option Rat :=
  let s0 := ((dropSpaces s).reverse |> dropSpaces).reverse
  let signBody : Rat × List Char :=
    match s0 with
    | '+' :: cs => (1, cs)
    | '-' :: cs => (-1, cs)
    | cs => (1, cs)
  let sign := signBody.1
  let ipRest := takeDigits signBody.2
  let fpRest : List Char × List Char :=
    match ipRest.2 with
    | '.' :: cs => takeDigits cs
    | cs => ([], cs)
  if ipRest.1 = [] ∧ fpRest.1 = [] then none
  else
    let mant : Rat := (digitsVal ipRest.1 : Rat)
      + (digitsVal fpRest.1 : Rat) / ((10 : Rat) ^ fpRest.1.length)
    match fpRest.2 with
    | [] => some (sign * mant)
    | e :: cs =>
      if e = 'e' ∨ e = 'E' then
        let esBody : Int × List Char :=
          match cs with
          | '+' :: ds => (1, ds)
          | '-' :: ds => (-1, ds)
          | ds => (1, ds)
        let edRest := takeDigits esBody.2
        if edRest.1 = [] ∨ edRest.2 ≠ [] then none
        else some (sign * mant * (10 : Rat) ^ (esBody.1 * (digitsVal edRest.1 : Int)))
      else none

/-! ### command_parse.py -/

/-- Exceptions a parse can surface: the repository's `CommandParseError`
(caught by `_process_command`), or the builtin exceptions that splitting /
unpacking / indexing / conversion would raise if their guards were wrong. -/
inductive PyExc
  | commandParseError (msg : String)
  | valueError
  | indexError
deriving DecidableEq, Repr

/-- `lst[n]`, raising `IndexError` when out of range. -/
def pyIndex {α : Type} (l : List α) (n : Nat) : Except PyExc α :=
  match l.get? n with
  | some x => .ok x
  | none => .error .indexError

/-- `command_parse.CommandType`. -/
inductive PyCommandType
  | START | STOP | STOP_ALL | HOOK | ALL_HOOKS | THRESHOLD | HELP
deriving DecidableEq, Repr

/-- The typed contents of `CommandDesc.parameters` for each command kind. -/
inductive CommandParams
  | start (streamer hookName : List Char)
  | stop (streamer : List Char)
  | stopAll
  | hook (hookName hookStr : List Char)
  | allHooks
  | threshold (value : Rat)
  | helpMsg (commands : String)
deriving DecidableEq, Repr

/-- `command_parse.CommandDesc`. -/
structure CommandDesc where
  command_type : PyCommandType
  parameters : CommandParams
deriving DecidableEq, Repr

/-- The `command_type` tag agrees with the parameter payload. -/
def CommandDesc.wellFormed : CommandDesc → Prop
  | ⟨.START, .start _ _⟩ => True
  | ⟨.STOP, .stop _⟩ => True
  | ⟨.STOP_ALL, .stopAll⟩ => True
  | ⟨.HOOK, .hook _ _⟩ => True
  | ⟨.ALL_HOOKS, .allHooks⟩ => True
  | ⟨.THRESHOLD, .threshold _⟩ => True
  | ⟨.HELP, .helpMsg _⟩ => True
  | _ => False

/-- `_parse_start_command`. -/
def parse_start_command (data : List (List Char)) : Except PyExc CommandParams :=
  match data with
  | [] => .error (.commandParseError "Wrong start command arguments")
  | d0 :: _ =>
    let values := pySplit d0
    if 2 < values.length then .error (.commandParseError "Too many start command arguments")
    else if values.length < 2 then .error (.commandParseError "Too few start command arguments")
    else do
      let streamer ← pyIndex values 0
      let hookName ← pyIndex values 1
      .ok (.start streamer hookName)

/-- `_parse_stop_command`. -/
def parse_stop_command (data : List (List Char)) : Except PyExc CommandParams :=
  match data with
  | [] => .error (.commandParseError "Wrong stop command arguments")
  | d0 :: _ =>
    let values := pySplit d0
    if values.length ≠ 1 then .error (.commandParseError "Unexpected stop command arguments")
    else do
      let streamer ← pyIndex values 0
      .ok (.stop streamer)

/-- `_parse_stopall_command`. -/
def parse_stopall_command (data : List (List Char)) : Except PyExc CommandParams :=
  match data with
  | [] => .ok .stopAll
  | _ :: _ => .error (.commandParseError "Unexpected stop_all command arguments")

/-- `_parse_hooks_command`. -/
def parse_hooks_command (data : List (List Char)) : Except PyExc CommandParams :=
  match data with
  | [] => .ok .allHooks
  | _ :: _ => .error (.commandParseError "Unexpected hooks command arguments")

/-- `_parse_hook_command`: `name, *words = data[0].split(maxsplit=1)` (an
empty split result would raise `ValueError` at the unpacking). -/
def parse_hook_command (data : List (List Char)) : Except PyExc CommandParams :=
  match data with
  | [] => .error (.commandParseError "Wrong hook command arguments")
  | d0 :: _ =>
    match pySplit1 d0 with
    | [] => .error .valueError
    | name :: words =>
      if ¬(pyEndsWith name ':' = true ∧ 1 < name.length) then
        .error (.commandParseError "Hook name not found")
      else if words = [] then .error (.commandParseError "Empty words list")
      else do
        let w0 ← pyIndex words 0
        .ok (.hook name.dropLast w0)

/-- `_parse_threshold_command`: the `float` `ValueError` is caught and
re-raised as a `CommandParseError`. -/
def parse_threshold_command (data : List (List Char)) : Except PyExc CommandParams :=
  match data with
  | [] => .error (.commandParseError "Too few threshold command arguments")
  | d0 :: _ =>
    match pySplit1 d0 with
    | [] => .error .valueError
    | valueStr :: rest =>
      match pyFloat valueStr with
      | none => .error (.commandParseError "Unexpected threshold value")
      | some value =>
        if rest ≠ [] then .error (.commandParseError "Too many threshold command arguments")
        else if value < 0 ∨ 1 < value then
          .error (.commandParseError "Wrong threshold value (0.0 <= value <= 1.0)")
        else .ok (.threshold value)

/-- The constant help text returned by `_parse_help_command`. -/
def helpCommandsText : String :=
  "Support commands:\n        /start streamer hook - start tracking streamer with hook\n        /stop streamer - stop tracking streamers\n        /stop_all - stop tracking everyone\n        /hook name: [words]\n        /hooks - show all hooks\n        /threshold value - set threshold (0.0 - 1.0) default 0.5\n        /? - Help message\n        "

/-- `_parse_help_command` (always succeeds, ignores any arguments). -/
def parse_help_command : Except PyExc CommandParams :=
  .ok (.helpMsg helpCommandsText)

/-- `parse_command`: `command_name, *data = command.split(maxsplit=1)` (a
whitespace-only command would raise `ValueError` at the unpacking), then
dispatch on the command name. -/
def parse_command (command : List Char) : Except PyExc CommandDesc :=
  match pySplit1 command with
  | [] => .error .valueError
  | command_name :: data =>
    if command_name = "/start".toList then
      (parse_start_command data).map (fun p => ⟨.START, p⟩)
    else if command_name = "/stop".toList then
      (parse_stop_command data).map (fun p => ⟨.STOP, p⟩)
    else if command_name = "/stop_all".toList then
      (parse_stopall_command data).map (fun p => ⟨.STOP_ALL, p⟩)
    else if command_name = "/hook".toList then
      (parse_hook_command data).map (fun p => ⟨.HOOK, p⟩)
    else if command_name = "/hooks".toList then
      (parse_hooks_command data).map (fun p => ⟨.ALL_HOOKS, p⟩)
    else if command_name = "/threshold".toList then
      (parse_threshold_command data).map (fun p => ⟨.THRESHOLD, p⟩)
    else if command_name = "/?".toList then
      parse_help_command.map (fun p => ⟨.HELP, p⟩)
    else .error (.commandParseError ("Unknown command " ++ String.mk command_name))

/-- Outcome shape claimed by C10: a well-formed `CommandDesc`, or a
`CommandParseError`; never a bare `ValueError` / `IndexError`. -/
def parseOutcomeOk : Except PyExc CommandDesc → Prop
  | .ok d => d.wellFormed
  | .error (.commandParseError _) => True
  | .error _ => False

/-! ### difflib.SequenceMatcher, as instantiated by matcher.py

`MessageMatcher._create_tasks` builds
`SequenceMatcher(lambda s: s == ' ', message, pattern)`, so sequence `a` is
the chat message, sequence `b` is the subscriber's hook pattern, junk is the
space character, and `autojunk` is on (its default).  Floats are modelled as
rationals.  `.ratio()` is `2*M/T` where `M` sums the sizes of the matching
blocks found by the recursive divide-and-conquer around
`find_longest_match` (the sort-and-merge step of `get_matching_blocks`
preserves that sum, so the recursion below sums the block sizes directly). -/

/-- The `isjunk` predicate the matcher passes: `lambda s: s == ' '`. -/
def isjunkSpace (c : Char) : Bool := c = ' '

/-- `b2j[c]`: the ascending positions of `c` in `b`, with junk characters
excluded, and — `autojunk` — characters of a `b` of length `>= 200` occurring
more than `len(b) // 100 + 1` times also excluded. -/
def b2jIndices (b : List Char) (c : Char) : List Nat :=
  if isjunkSpace c then []
  else if 200 ≤ b.length ∧ b.length / 100 + 1 < b.count c then []
  else (List.range b.length).filter (fun j => b.get? j = some c)

/-- Inner loop of `find_longest_match` phase 1: walk the ascending index list
`b2j[a[i]]`, `continue` below `blo`, `break` at `bhi`, extend run lengths
(`newj2len[j] = j2len[j-1] + 1`, reading the previous row with default 0 —
keys are `Int` so that the `j = 0` read of key `-1` hits the default), and
track the first longest run.  `i + 1 - k` is Python's `i - k + 1` (the run
ending at `i` has length at most `i + 1`). -/
def flmInner (j2len : Int → Nat) (i blo bhi : Nat) :
    List Nat → (Int → Nat) → (Nat × Nat × Nat) → ((Int → Nat) × (Nat × Nat × Nat))
  | [], newj2len, best => (newj2len, best)
  | j :: js, newj2len, best =>
    if j < blo then flmInner j2len i blo bhi js newj2len best
    else if bhi ≤ j then (newj2len, best)
    else
      let k := j2len ((j : Int) - 1) + 1
      let newj2len' : Int → Nat := fun x => if x = (j : Int) then k else newj2len x
      let best' := if best.2.2 < k then (i + 1 - k, j + 1 - k, k) else best
      flmInner j2len i blo bhi js newj2len' best'

/-- Outer loop of `find_longest_match` phase 1: one pass per `i` in
`range(alo, ahi)`, threading `j2len` rows and the best triple. -/
def flmOuter (a b : List Char) (blo bhi : Nat) :
    List Nat → (Int → Nat) → (Nat × Nat × Nat) → (Nat × Nat × Nat)
  | [], _, best => best
  | i :: is, j2len, best =>
    let step := flmInner j2len i blo bhi (b2jIndices b (a.getD i ' ')) (fun _ => 0) best
    flmOuter a b blo bhi is step.1 step.2

/-- One of the four extension `while` loops of `find_longest_match`, walking
the match left while the adjacent characters are equal and have the requested
junk status.  The fuel argument is an upper bound on the iteration count
(`besti` strictly decreases each step), so it never cuts the loop short. -/
def extendLeft (junk : Bool) (a b : List Char) (alo blo : Nat) :
    Nat → (Nat × Nat × Nat) → (Nat × Nat × Nat)
  | 0, best => best
  | Nat.succ fuel, (besti, bestj, bestsize) =>
    if alo < besti ∧ blo < bestj ∧
        isjunkSpace (b.getD (bestj - 1) ' ') = junk ∧
        a.getD (besti - 1) ' ' = b.getD (bestj - 1) ' ' then
      extendLeft junk a b alo blo fuel (besti - 1, bestj - 1, bestsize + 1)
    else (besti, bestj, bestsize)

/-- Rightward counterpart of `extendLeft` (`bestsize` strictly increases and
is bounded by `ahi`, so `ahi + 1` fuel never cuts the loop short). -/
def extendRight (junk : Bool) (a b : List Char) (ahi bhi : Nat) :
    Nat → (Nat × Nat × Nat) → (Nat × Nat × Nat)
  | 0, best => best
  | Nat.succ fuel, (besti, bestj, bestsize) =>
    if besti + bestsize < ahi ∧ bestj + bestsize < bhi ∧
        isjunkSpace (b.getD (bestj + bestsize) ' ') = junk ∧
        a.getD (besti + bestsize) ' ' = b.getD (bestj + bestsize) ' ' then
      extendRight junk a b ahi bhi fuel (besti, bestj, bestsize + 1)
    else (besti, bestj, bestsize)

/-- `SequenceMatcher.find_longest_match(alo, ahi, blo, bhi)`: phase 1 scan,
then the four extension loops (non-junk left/right, then junk left/right). -/
def find_longest_match (a b : List Char) (alo ahi blo bhi : Nat) : Nat × Nat × Nat :=
  let phase1 := flmOuter a b blo bhi (List.range' alo (ahi - alo)) (fun _ => 0) (alo, blo, 0)
  let e1 := extendLeft false a b alo blo (phase1.1 + 1) phase1
  let e2 := extendRight false a b ahi bhi (ahi + 1) e1
  let e3 := extendLeft true a b alo blo (e2.1 + 1) e2
  extendRight true a b ahi bhi (ahi + 1) e3

/-- Sum of matching-block sizes: the divide-and-conquer of
`get_matching_blocks`, written as a recursion (the work-queue order and the
final sort/merge do not change the sum).  The fuel bounds the recursion
depth; each recursive call's `a`-interval is strictly smaller, so the
`a.length + 1` budget supplied by `seqMatcherRatioQ` is never exhausted. -/
def matchingSum (a b : List Char) : Nat → Nat → Nat → Nat → Nat → Nat
  | 0, _, _, _, _ => 0
  | Nat.succ fuel, alo, ahi, blo, bhi =>
    let m := find_longest_match a b alo ahi blo bhi
    let i := m.1
    let j := m.2.1
    let k := m.2.2
    if k = 0 then 0
    else
      k + (if alo < i ∧ blo < j then matchingSum a b fuel alo i blo j else 0)
        + (if i + k < ahi ∧ j + k < bhi then matchingSum a b fuel (i + k) ahi (j + k) bhi else 0)

/-- `difflib._calculate_ratio` over the rationals. -/
def calculateRatioQ (m len : Nat) : Rat :=
  if len ≠ 0 then 2 * (m : Rat) / (len : Rat) else 1

/-- `SequenceMatcher(lambda s: s == ' ', a, b).ratio()`. -/
def seqMatcherRatioQ (a b : List Char) : Rat :=
  calculateRatioQ (matchingSum a b (a.length + 1) 0 a.length 0 b.length)
    (a.length + b.length)

/-! ### Shared data model: userinfo.py and feedback.py records

Python strings used as names/keys stay `String` here; only text handed to the
split/similarity primitives is viewed as `List Char`.  Python `dict`s are
insertion-ordered association lists with unique keys; the helpers below
mirror dict get / membership / item-set / `del`. -/

/-- `d.get(k)` more precisely `d[k]` when present: the first (unique) entry. -/
def pyGet? {V : Type} (d : List (String × V)) (k : String) : Option V :=
  (d.find? (fun p => p.1 == k)).map (·.2)

/-- `k in d`. -/
def pyContains {V : Type} (d : List (String × V)) (k : String) : Bool :=
  (pyGet? d k).isSome

/-- `d[k] = v`: update in place if the key exists, else append. -/
def pySet {V : Type} (d : List (String × V)) (k : String) (v : V) : List (String × V) :=
  if pyContains d k then d.map (fun p => if p.1 == k then (k, v) else p)
  else d ++ [(k, v)]

/-- `del d[k]` with the key known present (the guarded deletes);
removes the entry. -/
def pyDel {V : Type} (d : List (String × V)) (k : String) : List (String × V) :=
  d.eraseP (fun p => p.1 == k)

/-- `userinfo.User`.  `streamers` holds the keys of the broadcaster map (its
values are the very session objects the registry owns, so they are recovered
by registry lookup); `startLockId` is the identity of the `asyncio.Lock`
object in `start_lock`. -/
structure User where
  name : String
  chat_id : Int
  streamers : List String
  hooks : List (String × String)
  threshold : Rat
  startLockId : Nat
deriving DecidableEq, Repr

/-- `stream.ChatMessage` (the timedelta is an abstract tick count). -/
structure ChatMessage where
  nickname : String
  message : String
  from_start : Int
deriving DecidableEq, Repr

/-- `stream.Subscribe`: the subscriber reference a session hands to the
matcher (a user snapshot plus the hook name chosen for this session). -/
structure Subscribe where
  user : User
  hook_name : String
deriving DecidableEq, Repr

/-- `feedback.StreamFeedback`. -/
structure StreamFeedback where
  streamer_name : String
  chat_message : ChatMessage
  subscribers : List Subscribe
deriving DecidableEq, Repr

/-- `feedback.MatcherFeedback`. -/
structure MatcherFeedback where
  streamer_name : String
  chat_message : ChatMessage
  subscribers : List User
deriving DecidableEq, Repr

/-! ### matcher.py — `MessageMatcher.match` -/

/-- `matcher._ratio_passed`: `matcher.ratio() >= threshold` (inclusive). -/
def ratio_passed (a b : List Char) (threshold : Rat) : Bool :=
  threshold ≤ seqMatcherRatioQ a b

/-- The per-subscriber evaluation `_create_tasks` submits to the pool:
`_ratio_passed(SequenceMatcher(junk, message, sub.user.hooks[sub.hook_name]),
sub.user.threshold)`. -/
def subscriberPasses (msg : String) (sub : Subscribe) : Bool :=
  ratio_passed msg.toList ((pyGet? sub.user.hooks sub.hook_name).getD "").toList
    sub.user.threshold

/-- `MessageMatcher.match`: gather the concurrent per-subscriber results in
input order, keep `sub.user` for each passing subscriber (the
`zip`-comprehension), and dispatch one `MatcherFeedback` batch only when the
passing set is non-empty. -/
def matcherMatch (data : StreamFeedback) : List User × Option MatcherFeedback :=
  let results := data.subscribers.map (subscriberPasses data.chat_message.message)
  let passed_subs := (data.subscribers.zip results).filterMap
    (fun p => if p.2 then some p.1.user else none)
  (passed_subs,
    if passed_subs ≠ [] then
      some ⟨data.streamer_name, data.chat_message, passed_subs⟩
    else none)

/-! ### observer.py — the subscription registry

State: `self._users` (name → User) and `self._streamers` (name →
session).  A session's own `_subs` dict (user name → hook name) lives in the
registry entry; a `StreamContext`'s task is tracked through the operation
effects (`createdTask` / `cancelledTask`) since the task object itself has no
further observable state here.  `User.streamers` keeps only the keys of the
broadcaster map — its values are the very session objects the registry owns,
recovered by lookup, exactly as the code only ever uses them.

Unguarded Python `del d[k]` / `d[k]` operations are embedded with `Except`
(`KeyError` when the key is missing); guarded ones use the total helpers. -/

/-- Exceptions the registry-level operations can raise. -/
inductive PyErr
  | keyError (k : String)
  | runtimeError (msg : String)
deriving DecidableEq, Repr

/-- Unguarded `del d[k]`: `KeyError` when absent. -/
def pyDelE {V : Type} (d : List (String × V)) (k : String) :
    Except PyErr (List (String × V)) :=
  if pyContains d k then .ok (pyDel d k) else .error (.keyError k)

/-- Unguarded `d[k]`: `KeyError` when absent. -/
def pyGetE {V : Type} (d : List (String × V)) (k : String) : Except PyErr V :=
  match pyGet? d k with
  | some v => .ok v
  | none => .error (.keyError k)

/-- Key-set view of `user.streamers`: assignment appends an unseen key. -/
def pyKeyAdd (l : List String) (k : String) : List String :=
  if l.contains k then l else l ++ [k]

/-- Unguarded `del` on a key-set view (`del sub.user.streamers[name]`). -/
def pyKeyDelE (l : List String) (k : String) : Except PyErr (List String) :=
  if l.contains k then .ok (l.erase k) else .error (.keyError k)

/-- `stream.StreamSession` as the registry owns it: broadcaster name and the
`_subs` dict (subscriber user name → hook name). -/
structure StreamSessionState where
  name : String
  subs : List (String × String)
deriving DecidableEq, Repr

/-- The registry state: `self._users` and `self._streamers`. -/
structure ObserverState where
  users : List (String × User)
  streamers : List (String × StreamSessionState)
deriving DecidableEq, Repr

/-- The single `asyncio.Lock()` object created when the `User` dataclass body
is evaluated: a dataclass field default is evaluated once, at class-definition
time, so every `User` whose constructor call leaves `start_lock` defaulted
shares this one lock object. -/
def userDataclassDefaultLockId : Nat := 0

/-- `_get_user`: return the registered user, or construct
`ui.User(name, chat_id, dict(), dict())` — fresh dicts, defaulted
`threshold=0.5` and the class-level default `start_lock` — and register it. -/
def get_user (st : ObserverState) (name : String) (chat_id : Int) :
    ObserverState × User :=
  match pyGet? st.users name with
  | some u => (st, u)
  | none =>
    let u : User :=
      { name := name, chat_id := chat_id, streamers := [], hooks := [],
        threshold := 1/2, startLockId := userDataclassDefaultLockId }
    (⟨pySet st.users name u, st.streamers⟩, u)

/-- `twitch.StreamerDesc` (the start time is kept as its formatted text). -/
structure StreamerDesc where
  user_name : String
  started_at : String
  title : String
deriving DecidableEq, Repr

/-- Outcome of `await self._twitch.get_stream_description(streamer)` inside
Start: a description, or the caught `StreamNotFoundError`.  (An
`ObserverError` from the client propagates out of the handler and is outside
the claims about Start.) -/
inductive LookupOutcome
  | ok (desc : StreamerDesc)
  | notFound
deriving DecidableEq, Repr

/-- The confirmation text of `_process_start_command` (its f-string, with the
broadcast start time and title interpolated). -/
def startNotifyMsg (desc : StreamerDesc) : String :=
  "Now you tracking " ++ desc.user_name
    ++ "\n        started at: " ++ desc.started_at
    ++ "\n        title: " ++ desc.title ++ "\n        "

/-- Result of one Start operation: the new registry state, the notices queued
via `_notify`, and the streamer for which a session + ingestion task was
freshly created (`none` when an existing session was reused or the operation
aborted). -/
structure StartResult where
  state : ObserverState
  notices : List (List String × String)
  createdTask : Option String
deriving DecidableEq, Repr

/-- `_process_start_command(user, streamer=..., hook_name=...)`, with the
directory lookup outcome supplied as a parameter.  The caller always passes a
registered user (`_get_user` ran first); an unregistered name cannot occur
and is mapped to an untouched state. -/
def process_start_command (st : ObserverState) (uname streamer hook_name : String)
    (lookup : LookupOutcome) : StartResult :=
  match pyGet? st.users uname with
  | none => ⟨st, [], none⟩
  | some user =>
    if user.streamers.contains streamer then
      ⟨st, [([uname], "Streamer " ++ streamer ++ " already tracked")], none⟩
    else if (pyGet? user.hooks hook_name).isNone then
      ⟨st, [([uname], "Hook " ++ hook_name ++ " not found")], none⟩
    else
      match lookup with
      | .notFound =>
        ⟨st, [([uname], "Stream " ++ streamer ++ " not exists or offline")], none⟩
      | .ok desc =>
        let createNew := !(pyContains st.streamers streamer)
        let streamers1 :=
          if pyContains st.streamers streamer then st.streamers
          else pySet st.streamers streamer ⟨streamer, []⟩
        let streamers2 :=
          match pyGet? streamers1 streamer with
          | some sess =>
            pySet streamers1 streamer ⟨sess.name, pySet sess.subs uname hook_name⟩
          | none => streamers1
        let user' := { user with streamers := pyKeyAdd user.streamers streamer }
        ⟨⟨pySet st.users uname user', streamers2⟩,
          [([uname], startNotifyMsg desc)],
          if createNew then some streamer else none⟩

/-- The session Start subscribes to: the existing registry entry when
present, else the fresh `StreamSession` (empty subscriber map) it creates. -/
def startSessionBase (st : ObserverState) (streamer : String) : StreamSessionState :=
  match pyGet? st.streamers streamer with
  | some sess => sess
  | none => ⟨streamer, []⟩

/-- Result of one Stop operation. -/
structure StopResult where
  state : ObserverState
  notices : List (List String × String)
  cancelledTask : Option String
deriving DecidableEq, Repr

/-- `_process_stop_command(user, streamer=...)`.  The branch condition is the
code's `streamer in user.streamers and streamer in self._streamers`; inside
it, `unsubscribe` performs an unguarded `del self._subs[user.name]`. -/
def process_stop_command (st : ObserverState) (uname streamer : String) :
    Except PyErr StopResult :=
  match pyGet? st.users uname with
  | none => .error (.keyError uname)
  | some user =>
    if user.streamers.contains streamer && pyContains st.streamers streamer then do
      let sess ← pyGetE st.streamers streamer
      let subs' ← pyDelE sess.subs uname
      let emptied := subs'.isEmpty
      let streamers' :=
        if emptied then pyDel st.streamers streamer
        else pySet st.streamers streamer ⟨sess.name, subs'⟩
      let user' := { user with streamers := user.streamers.erase streamer }
      .ok ⟨⟨pySet st.users uname user', streamers'⟩,
        [([uname], "Stop tracking " ++ streamer)],
        if emptied then some streamer else none⟩
    else
      .ok ⟨st, [([uname], "You do not tracking " ++ streamer)], none⟩

/-- The `for name in user.streamers.keys()` loop of `_process_stopall_command`
(the loop deletes only from `self._streamers`, never from the dict being
iterated, so there is no iterator invalidation here).  Returns the updated
`_streamers` and the cancelled task names. -/
def stopall_loop (uname : String) :
    List String → List (String × StreamSessionState)
      → Except PyErr (List (String × StreamSessionState) × List String)
  | [], streamers => .ok (streamers, [])
  | name :: rest, streamers => do
    let sess ← pyGetE streamers name
    let subs' ← pyDelE sess.subs uname
    let emptied := subs'.isEmpty
    let streamers' :=
      if emptied then pyDel streamers name
      else pySet streamers name ⟨sess.name, subs'⟩
    let stepRest ← stopall_loop uname rest streamers'
    .ok (stepRest.1, (if emptied then [name] else []) ++ stepRest.2)

/-- `_process_stopall_command(user)`: Stop semantics for every tracked
broadcaster, one consolidated notice (joining the keys), then
`user.streamers.clear()`. -/
def process_stopall_command (st : ObserverState) (uname : String) :
    Except PyErr StopResult :=
  match pyGet? st.users uname with
  | none => .error (.keyError uname)
  | some user => do
    let step ← stopall_loop uname user.streamers st.streamers
    let user' := { user with streamers := [] }
    .ok ⟨⟨pySet st.users uname user', step.1⟩,
      [([uname], "Stop tracking " ++ String.intercalate " " user.streamers)],
      none⟩

/-- `stream.StreamSession.unsubscribe_all` (with `notify=True`), second half:
for every entry of `self._subs`, `del sub.user.streamers[self._name]` — an
unguarded `del` on that user's broadcaster map.  `self._subs` itself is NOT
cleared. -/
def unsubscribe_all_loop (sname : String) :
    List (String × String) → List (String × User) → Except PyErr (List (String × User))
  | [], users => .ok users
  | (uname, _) :: rest, users =>
    match pyGet? users uname with
    | none => .error (.keyError uname)
    | some u => do
      let streamers' ← pyKeyDelE u.streamers sname
      unsubscribe_all_loop sname rest (pySet users uname { u with streamers := streamers' })

/-- Result of `_remove_session`. -/
structure RemoveResult where
  state : ObserverState
  notices : List (List String × String)
deriving DecidableEq, Repr

/-- `observer._remove_session(session)`: `session.unsubscribe_all()` (queue
one closure notice to the session's current subscribers, then clear the
back-references) followed by the unguarded `del self._streamers[session.name]`.
The `session` argument is the caller's object reference: it still carries its
subscriber map even when the registry entry is already gone. -/
def remove_session (st : ObserverState) (sess : StreamSessionState) :
    Except PyErr RemoveResult := do
  let users' ← unsubscribe_all_loop sess.name sess.subs st.users
  let streamers' ← pyDelE st.streamers sess.name
  .ok ⟨⟨users', streamers'⟩, [(sess.subs.map (·.1), sess.name ++ " stream closed")]⟩

/-- Directory lookup outcome for one sweep entry (`gather` with
`return_exceptions=True`): a live description, the `StreamNotFoundError`
teardown trigger, or any other exception (only logged). -/
inductive SweepLookup
  | ok
  | notFound
  | err
deriving DecidableEq, Repr

/-- Result of one `_run_streams_ping` pass: final state, queued notices,
cancelled tasks, the streamers whose result was actually inspected, the
logged non-teardown failures, and the exception (if any) that ended the pass. -/
structure SweepResult where
  state : ObserverState
  notices : List (List String × String)
  cancelled : List String
  processed : List String
  logged : List String
  raised : Option PyErr
deriving DecidableEq, Repr

/-- The `for streamer, desc in zip(self._streamers, results)` loop.  `zip`
pulls from a live iterator over the `_streamers` dict; a CPython dict
iterator compares the dict's current size with the size recorded at iterator
creation on every `next()` call — including the terminating one — and raises
`RuntimeError('dictionary changed size during iteration')` on any mismatch.
`origKeys`/`origSize` are the key sequence and size at iterator creation
(equal to the live walk, since the first deletion already raises at the
following `next()`).  State changes made before a raise persist (the raise
propagates out of the pass). -/
def sweep_zip_loop (origSize : Nat) :
    List String → List SweepLookup → ObserverState
      → List (List String × String) → List String → List String → List String
      → SweepResult
  | keys, results, st, notices, cancelled, processed, logged =>
    if st.streamers.length ≠ origSize then
      ⟨st, notices, cancelled, processed, logged,
        some (.runtimeError "dictionary changed size during iteration")⟩
    else
      match keys, results with
      | [], _ => ⟨st, notices, cancelled, processed, logged, none⟩
      | _ :: _, [] => ⟨st, notices, cancelled, processed, logged, none⟩
      | streamer :: krest, desc :: rrest =>
        match desc with
        | .notFound =>
          match pyGetE st.streamers streamer with
          | .error e => ⟨st, notices, cancelled, processed ++ [streamer], logged, some e⟩
          | .ok sess =>
            match remove_session st sess with
            | .error e =>
              ⟨st, notices, cancelled ++ [streamer], processed ++ [streamer], logged, some e⟩
            | .ok r =>
              sweep_zip_loop origSize krest rrest r.state (notices ++ r.notices)
                (cancelled ++ [streamer]) (processed ++ [streamer]) logged
        | .err =>
          sweep_zip_loop origSize krest rrest st notices cancelled
            (processed ++ [streamer]) (logged ++ [streamer])
        | .ok =>
          sweep_zip_loop origSize krest rrest st notices cancelled
            (processed ++ [streamer]) logged

/-- One pass of `_run_streams_ping` over the current sessions, given the
gathered per-session lookup results (aligned with the key order at the start
of the pass). -/
def run_streams_ping_pass (st : ObserverState) (results : List SweepLookup) : SweepResult :=
  sweep_zip_loop st.streamers.length (st.streamers.map (·.1)) results st [] [] [] []

/-- Subscriber and session for the C9 double-teardown scenario. -/
def c9Alice : User :=
  { name := "alice", chat_id := 1, streamers := ["foo"],
    hooks := [("alert", "giveaway")], threshold := 1, startLockId := 0 }

/-- The session object both teardown paths hold a reference to. -/
def c9Session : StreamSessionState := ⟨"foo", [("alice", "alert")]⟩

/-- Registry state with alice subscribed to the live session `foo`. -/
def c9State : ObserverState := ⟨[("alice", c9Alice)], [("foo", c9Session)]⟩

/-- The registry state after the first teardown of `foo`. -/
def c9AfterFirst : ObserverState :=
  ⟨[("alice", { c9Alice with streamers := [] })], []⟩

/-- Users for the C2 sweep scenario. -/
def c2Alice : User :=
  { name := "alice", chat_id := 1, streamers := ["foo"],
    hooks := [("h", "x")], threshold := 1, startLockId := 0 }

/-- Second user for the C2 sweep scenario. -/
def c2Bob : User :=
  { name := "bob", chat_id := 2, streamers := ["bar"],
    hooks := [("h", "y")], threshold := 1, startLockId := 0 }

/-- Registry state with two live sessions, one subscriber each. -/
def c2State : ObserverState :=
  ⟨[("alice", c2Alice), ("bob", c2Bob)],
    [("foo", ⟨"foo", [("alice", "h")]⟩), ("bar", ⟨"bar", [("bob", "h")]⟩)]⟩

/-- `_process_hook_command`: upsert the named hook, queue one notice. -/
def process_hook_command (st : ObserverState) (uname hook_name hook_str : String) :
    ObserverState × List (List String × String) :=
  match pyGet? st.users uname with
  | none => (st, [])
  | some user =>
    let msg :=
      if pyContains user.hooks hook_name then
        "Replace hook " ++ hook_name ++ ": " ++ hook_str
      else "Set new hook " ++ hook_name ++ ": " ++ hook_str
    (⟨pySet st.users uname { user with hooks := pySet user.hooks hook_name hook_str },
        st.streamers⟩,
      [([uname], msg)])

/-- `_process_threshold_command` (the notice text interpolates the value;
the interpolation is elided, the claims do not touch it). -/
def process_threshold_command (st : ObserverState) (uname : String) (t : Rat) :
    ObserverState × List (List String × String) :=
  match pyGet? st.users uname with
  | none => (st, [])
  | some user =>
    (⟨pySet st.users uname { user with threshold := t }, st.streamers⟩,
      [([uname], "You set new threshold")])

/-- The data-model invariant of the registry (claim C3): user and session
dictionaries have unique keys and store records under their own names; a
session's subscriber map has at most one entry per user; every entry of a
user's broadcaster map points at a registered session holding that user's
subscription; and every subscription of a registered session points back at a
registered user whose broadcaster map lists that session. -/
structure Invariant (st : ObserverState) : Prop where
  usersNodup : (st.users.map (·.1)).Nodup
  streamersNodup : (st.streamers.map (·.1)).Nodup
  usersKeyed : ∀ p ∈ st.users, p.2.name = p.1
  sessionsKeyed : ∀ q ∈ st.streamers, q.2.name = q.1
  userStreamersNodup : ∀ p ∈ st.users, p.2.streamers.Nodup
  subsNodup : ∀ q ∈ st.streamers, (q.2.subs.map (·.1)).Nodup
  userToSession : ∀ p ∈ st.users, ∀ s ∈ p.2.streamers,
    ∃ sess, pyGet? st.streamers s = some sess ∧ pyContains sess.subs p.1 = true
  sessionToUser : ∀ q ∈ st.streamers, ∀ e ∈ q.2.subs,
    ∃ u, pyGet? st.users e.1 = some u ∧ u.streamers.contains q.1 = true

/-- The states the registry can be in: the initial empty registry, closed
under the command handlers (a user is always materialised by `_get_user`
before its command runs) and under session teardown applied — as both the
sweep and the reconnect-exhaustion path do at the moment they fire — to a
session currently present in the registry. -/
inductive Reachable : ObserverState → Prop
  | init : Reachable ⟨[], []⟩
  | newUser (st : ObserverState) (name : String) (cid : Int) :
      Reachable st → Reachable (get_user st name cid).1
  | hookCmd (st : ObserverState) (uname hook_name hook_str : String) :
      Reachable st → Reachable (process_hook_command st uname hook_name hook_str).1
  | thresholdCmd (st : ObserverState) (uname : String) (t : Rat) :
      Reachable st → Reachable (process_threshold_command st uname t).1
  | startCmd (st : ObserverState) (uname streamer hook_name : String)
      (lookup : LookupOutcome) :
      Reachable st →
      Reachable (process_start_command st uname streamer hook_name lookup).state
  | stopCmd (st : ObserverState) (uname streamer : String) (r : StopResult) :
      Reachable st → process_stop_command st uname streamer = .ok r →
      Reachable r.state
  | stopAllCmd (st : ObserverState) (uname : String) (r : StopResult) :
      Reachable st → process_stopall_command st uname = .ok r →
      Reachable r.state
  | teardown (st : ObserverState) (name : String) (sess : StreamSessionState)
      (r : RemoveResult) :
      Reachable st → pyGet? st.streamers name = some sess →
      remove_session st sess = .ok r → Reachable r.state

/-- User for the C4 witness: tracks `old`, owns hook `alert`. -/
def c4User : User :=
  { name := "alice", chat_id := 1, streamers := ["old"],
    hooks := [("alert", "x")], threshold := 1, startLockId := 0 }

/-- Registry state for the C4 witness. -/
def c4State : ObserverState :=
  ⟨[("alice", c4User)], [("old", ⟨"old", [("alice", "alert")]⟩)]⟩

/-- Directory description for the C4 witness. -/
def c4Desc : StreamerDesc := ⟨"Foo", "2021-01-01T00:00:00", "cool stream"⟩

/-- User for the C5 witness: tracks `foo` (alone) and `bar` (shared). -/
def c5Alice : User :=
  { name := "alice", chat_id := 1, streamers := ["foo", "bar"],
    hooks := [("h", "x")], threshold := 1, startLockId := 0 }

/-- Second user for the C5 witness: tracks only `bar`. -/
def c5Bob : User :=
  { name := "bob", chat_id := 2, streamers := ["bar"],
    hooks := [("h", "y")], threshold := 1, startLockId := 0 }

/-- Registry state for the C5 witness. -/
def c5State : ObserverState :=
  ⟨[("alice", c5Alice), ("bob", c5Bob)],
    [("foo", ⟨"foo", [("alice", "h")]⟩), ("bar", ⟨"bar", [("alice", "h"), ("bob", "h")]⟩)]⟩

/-! ## Theorems -/

/-- C1 (the code contradicts it): the start gate is not a distinct per-user
gate.  `start_lock: asyncio.Lock = asyncio.Lock()` is a dataclass field
default, evaluated once when the class body is executed, and `_get_user`
constructs `ui.User(name, chat_id, dict(), dict())` without passing a lock —
so two users created from distinct identities end up with the very same lock
object, and one user's Start can wait on another user's gate. -/
theorem c1_start_lock_shared :
    ((get_user ⟨[], []⟩ "alice" 1).2).name
      ≠ ((get_user (get_user ⟨[], []⟩ "alice" 1).1 "bob" 2).2).name ∧
    ((get_user ⟨[], []⟩ "alice" 1).2).startLockId
      = ((get_user (get_user ⟨[], []⟩ "alice" 1).1 "bob" 2).2).startLockId := by
  exact ⟨by decide, rfl⟩

/-- C9 (the code contradicts it): session teardown is not idempotent.  The
first `_remove_session` succeeds (closure notice to alice, back-reference and
registry entry removed), but the session object still carries its `_subs`
map, so a second `_remove_session` on the same object raises `KeyError` while
re-deleting `user.streamers['foo']` — it is not a no-op. -/
theorem c9_remove_session_not_idempotent :
    remove_session c9State c9Session
      = .ok ⟨c9AfterFirst, [(["alice"], "foo stream closed")]⟩ ∧
    remove_session c9AfterFirst c9Session = .error (.keyError "foo") := by
  exact ⟨rfl, rfl⟩

/-- C2 (the code contradicts the never-aborts part): tearing a session down
deletes from `self._streamers` while `zip(self._streamers, results)` is
iterating it, so the next `next()` raises
`RuntimeError('dictionary changed size during iteration')`: with sessions
`foo, bar` and `foo` reported not-found, `foo` is fully torn down (task
cancelled, closure notice, registry entry removed) but `bar` is never
inspected and the pass dies.  A non-teardown lookup failure, by contrast, is
only logged and every sibling is still checked, state untouched. -/
theorem c2_sweep_teardown_aborts_pass :
    (run_streams_ping_pass c2State [.notFound, .ok]).raised
      = some (.runtimeError "dictionary changed size during iteration") ∧
    (run_streams_ping_pass c2State [.notFound, .ok]).processed = ["foo"] ∧
    (run_streams_ping_pass c2State [.notFound, .ok]).cancelled = ["foo"] ∧
    (run_streams_ping_pass c2State [.notFound, .ok]).notices
      = [(["alice"], "foo stream closed")] ∧
    (run_streams_ping_pass c2State [.notFound, .ok]).state
      = ⟨[("alice", { c2Alice with streamers := [] }), ("bob", c2Bob)],
          [("bar", ⟨"bar", [("bob", "h")]⟩)]⟩ ∧
    (run_streams_ping_pass c2State [.err, .ok]).raised = none ∧
    (run_streams_ping_pass c2State [.err, .ok]).processed = ["foo", "bar"] ∧
    (run_streams_ping_pass c2State [.err, .ok]).logged = ["foo"] ∧
    (run_streams_ping_pass c2State [.err, .ok]).state = c2State := by
  exact ⟨rfl, rfl, rfl, rfl, rfl, rfl, rfl, rfl, rfl⟩

lemma startSessionLoop_length (outcomes : Nat → AttemptOutcome) (next : Nat) :
    ∀ k, (startSessionLoop outcomes next k).length = k := by
  intro k
  induction k generalizing next with
  | zero => rfl
  | succ k ih => simpa [startSessionLoop] using ih (next + 1)

lemma postSteps_allRateLimited (resps : Nat → Nat) (hall : ∀ i, resps i = 429) :
    ∀ fuel i, postSteps resps i fuel = none := by
  intro fuel
  induction fuel with
  | zero => intro i; rfl
  | succ fuel ih =>
    intro i
    simp only [postSteps, hall i]
    norm_num
    exact ih (i + 1)

/-- C6: a stream session's ingestion loop makes at most (indeed exactly) the
configured maximum number of connection attempts; a handshake failure and a
receive/socket error consume the same counter (the attempt count is
independent of the outcome stream); and after exhausting the budget
`start_session` terminates by raising `ObserverError('Websocket connection
error')` — the terminal failed state — rather than looping forever. -/
theorem c6_reconnect_budget (outcomes outcomes' : Nat → AttemptOutcome)
    (maxReconnects : Nat) :
    (start_session outcomes maxReconnects).attempts.length = maxReconnects ∧
    (start_session outcomes maxReconnects).errorMsg = "Websocket connection error" ∧
    (start_session outcomes maxReconnects).attempts.length
      = (start_session outcomes' maxReconnects).attempts.length := by
  refine ⟨startSessionLoop_length outcomes 0 maxReconnects, rfl, ?_⟩
  rw [start_session, start_session]
  rw [startSessionLoop_length outcomes 0 maxReconnects,
    startSessionLoop_length outcomes' 0 maxReconnects]

/-- C8: outbound dispatch is independent per recipient (the gathered result
list is exactly the per-recipient `_post` outcome on that recipient's own
response stream, with no cross-recipient coupling); a recipient answered 429
forever is retried indefinitely (no terminal outcome at any fuel, hence never
reported as a failure); any other status `>= 400` on a response makes that one
recipient's send fail permanently with a raised `ObserverError`; and the
failure log contains exactly the recipients whose own outcome was a raise. -/
theorem c8_dispatch_per_recipient (users : List Nat) (resps : Nat → Nat → Nat)
    (fuel : Nat) (u : Nat) :
    (dispatch_data users resps fuel).results
      = users.map (fun v => (v, postSteps (resps v) 0 fuel)) ∧
    ((∀ i, resps u i = 429) → ∀ f, postSteps (resps u) 0 f = none) ∧
    (∀ st, 400 ≤ st → st ≠ 429 → resps u 0 = st →
      postSteps (resps u) 0 (fuel + 1) = some (.failed st)) ∧
    (dispatch_data users resps fuel).failureLog
      = users.filter (fun v => loggedAsFailure (postSteps (resps v) 0 fuel)) := by
  refine ⟨rfl, fun hall f => postSteps_allRateLimited (resps u) hall f 0, ?_, ?_⟩
  · intro st h400 h429 h0
    have h200 : st ≠ 200 := by omega
    simp [postSteps, h0, h200, h429, h400]
  · show ((users.map (fun v => (v, postSteps (resps v) 0 fuel))).filter _).map _ = _
    induction users with
    | nil => rfl
    | cons v vs ih =>
      by_cases h : loggedAsFailure (postSteps (resps v) 0 fuel) <;>
        simp [h, ih]

/-- Witness for C8: with three recipients where only recipient 2 is answered
403, recipients 1 and 3 are delivered, recipient 2 fails, and the failure log
is exactly `[2]`; a recipient answered 429 forever has no outcome after 50
retries; the 403 answer is an immediate permanent failure. -/
theorem c8_dispatch_witness :
    (dispatch_data [1, 2, 3] c8WitnessResps 2).results
      = [(1, some .delivered), (2, some (.failed 403)), (3, some .delivered)] ∧
    (dispatch_data [1, 2, 3] c8WitnessResps 2).failureLog = [2] ∧
    postSteps (fun _ => 429) 0 50 = none ∧
    postSteps (c8WitnessResps 2) 0 3 = some (.failed 403) := by
  obtain ⟨hres, -, hfail, hlog⟩ := c8_dispatch_per_recipient [1, 2, 3] c8WitnessResps 2 2
  obtain ⟨-, hretry, -, -⟩ := c8_dispatch_per_recipient [9] (fun _ _ => 429) 2 9
  refine ⟨hres.trans (by decide), hlog.trans (by decide), hretry (fun _ => rfl) 50, ?_⟩
  exact hfail 403 (by omega) (by decide) rfl

lemma dropSpaces_head (s : List Char) :
    dropSpaces s = [] ∨ ∃ c cs, dropSpaces s = c :: cs ∧ pyIsSpace c = false := by
  induction s with
  | nil => exact Or.inl rfl
  | cons c cs ih =>
    cases h : pyIsSpace c with
    | true => simpa [dropSpaces, h] using ih
    | false => exact Or.inr ⟨c, cs, by simp [dropSpaces, h], h⟩

lemma dropSpaces_nonspace (c : Char) (cs : List Char) (h : pyIsSpace c = false) :
    dropSpaces (c :: cs) = c :: cs := by
  simp [dropSpaces, h]

lemma takeWord_cons (c : Char) (cs : List Char) (h : pyIsSpace c = false) :
    takeWord (c :: cs) = (c :: (takeWord cs).1, (takeWord cs).2) := by
  simp [takeWord, h]

lemma except_bind_ok {α β : Type} (a : α) (f : α → Except PyExc β) :
    ((Except.ok a : Except PyExc α) >>= f) = f a := rfl

lemma pyGet?_cons_eq {V : Type} (p : String × V) (tl : List (String × V)) (k : String)
    (h : (p.1 == k) = true) : pyGet? (p :: tl) k = some p.2 := by
  simp [pyGet?, List.find?_cons, h]

lemma pyGet?_cons_ne {V : Type} (p : String × V) (tl : List (String × V)) (k : String)
    (h : (p.1 == k) = false) : pyGet? (p :: tl) k = pyGet? tl k := by
  simp [pyGet?, List.find?_cons, h]

lemma pyContains_cons_ne {V : Type} (p : String × V) (tl : List (String × V)) (k : String)
    (h : (p.1 == k) = false) : pyContains (p :: tl) k = pyContains tl k := by
  simp [pyContains, pyGet?_cons_ne p tl k h]

lemma pySet_cons_ne {V : Type} (p : String × V) (tl : List (String × V)) (k : String) (v : V)
    (h : (p.1 == k) = false) : pySet (p :: tl) k v = p :: pySet tl k v := by
  have hne : p.1 ≠ k := by simpa using h
  by_cases hk : pyContains tl k
  · simp [pySet, pyContains_cons_ne p tl k h, hk, h, hne]
  · simp [pySet, pyContains_cons_ne p tl k h, hk, h, hne]

lemma pyGet?_pySet_self {V : Type} (d : List (String × V)) (k : String) (v : V) :
    pyGet? (pySet d k v) k = some v := by
  induction d with
  | nil => simp [pySet, pyContains, pyGet?]
  | cons p tl ih =>
    cases hpk : (p.1 == k) with
    | true =>
      have hc : pyContains (p :: tl) k = true := by
        simp [pyContains, pyGet?_cons_eq p tl k hpk]
      simp only [pySet, hc, if_true, List.map_cons, hpk, if_pos]
      exact pyGet?_cons_eq (k, v) _ k (by simp)
    | false =>
      rw [pySet_cons_ne p tl k v hpk, pyGet?_cons_ne p _ k hpk]
      exact ih

lemma pyGet?_map_keep {V : Type} (tl : List (String × V)) (k k' : String) (v : V)
    (h : (k == k') = false) :
    pyGet? (tl.map (fun q => if (q.1 == k) = true then (k, v) else q)) k'
      = pyGet? tl k' := by
  induction tl with
  | nil => rfl
  | cons q tq ih =>
    by_cases hqk : (q.1 == k) = true
    · have h1 : q.1 = k := by simpa using hqk
      have hq' : (q.1 == k') = false := by simpa [h1] using h
      rw [List.map_cons, if_pos hqk, pyGet?_cons_ne (k, v) _ k' h,
        pyGet?_cons_ne q tq k' hq']
      exact ih
    · rw [List.map_cons, if_neg hqk]
      by_cases hq : (q.1 == k') = true
      · rw [pyGet?_cons_eq q _ k' hq, pyGet?_cons_eq q tq k' hq]
      · have hq' : (q.1 == k') = false := by simpa using hq
        rw [pyGet?_cons_ne q _ k' hq', pyGet?_cons_ne q tq k' hq']
        exact ih

lemma pyGet?_pySet_ne {V : Type} (d : List (String × V)) (k k' : String) (v : V)
    (h : (k == k') = false) : pyGet? (pySet d k v) k' = pyGet? d k' := by
  induction d with
  | nil => simp [pySet, pyContains, pyGet?, List.find?_cons, h]
  | cons p tl ih =>
    by_cases hpk : (p.1 == k) = true
    · have h1 : p.1 = k := by simpa using hpk
      have hp' : (p.1 == k') = false := by simpa [h1] using h
      have hc : pyContains (p :: tl) k = true := by
        simp [pyContains, pyGet?_cons_eq p tl k hpk]
      have hset : pySet (p :: tl) k v
          = (p :: tl).map (fun q => if (q.1 == k) = true then (k, v) else q) := by
        simp [pySet, hc]
      rw [hset, List.map_cons, if_pos hpk, pyGet?_cons_ne (k, v) _ k' h,
        pyGet?_cons_ne p tl k' hp']
      exact pyGet?_map_keep tl k k' v h
    · have hpk' : (p.1 == k) = false := by simpa using hpk
      rw [pySet_cons_ne p tl k v hpk']
      by_cases hq : (p.1 == k') = true
      · rw [pyGet?_cons_eq p _ k' hq, pyGet?_cons_eq p tl k' hq]
      · have hq' : (p.1 == k') = false := by simpa using hq
        rw [pyGet?_cons_ne p _ k' hq', pyGet?_cons_ne p tl k' hq']
        exact ih

lemma pyGet?_eq_none_of_not_mem {V : Type} (d : List (String × V)) (k : String)
    (h : k ∉ d.map (·.1)) : pyGet? d k = none := by
  induction d with
  | nil => rfl
  | cons p tl ih =>
    simp only [List.map_cons, List.mem_cons] at h
    push_neg at h
    rw [pyGet?_cons_ne p tl k (beq_eq_false_iff_ne.mpr (fun he => h.1 he.symm))]
    exact ih h.2

lemma pyGet?_pyDel_self {V : Type} (d : List (String × V)) (k : String)
    (hnd : (d.map (·.1)).Nodup) : pyGet? (pyDel d k) k = none := by
  induction d with
  | nil => rfl
  | cons p tl ih =>
    rw [List.map_cons, List.nodup_cons] at hnd
    cases hpk : (p.1 == k) with
    | true =>
      have h1 : p.1 = k := by simpa using hpk
      have : pyDel (p :: tl) k = tl := by
        simp [pyDel, List.eraseP_cons, hpk]
      rw [this]
      exact pyGet?_eq_none_of_not_mem tl k (h1 ▸ hnd.1)
    | false =>
      have : pyDel (p :: tl) k = p :: pyDel tl k := by
        simp [pyDel, List.eraseP_cons, hpk]
      rw [this, pyGet?_cons_ne p _ k hpk]
      exact ih hnd.2

lemma pyGet?_pyDel_ne {V : Type} (d : List (String × V)) (k k' : String)
    (h : (k == k') = false) : pyGet? (pyDel d k) k' = pyGet? d k' := by
  induction d with
  | nil => rfl
  | cons p tl ih =>
    cases hpk : (p.1 == k) with
    | true =>
      have h1 : p.1 = k := by simpa using hpk
      have hd : pyDel (p :: tl) k = tl := by simp [pyDel, List.eraseP_cons, hpk]
      rw [hd, pyGet?_cons_ne p tl k' (by simpa [h1] using h)]
    | false =>
      have hd : pyDel (p :: tl) k = p :: pyDel tl k := by
        simp [pyDel, List.eraseP_cons, hpk]
      rw [hd]
      cases hpk' : (p.1 == k') with
      | true => rw [pyGet?_cons_eq p _ k' hpk', pyGet?_cons_eq p tl k' hpk']
      | false =>
        rw [pyGet?_cons_ne p _ k' hpk', pyGet?_cons_ne p tl k' hpk']
        exact ih

lemma pySplitLoop_zero_eq (s : List Char) (c : Char) (cs : List Char)
    (h : dropSpaces s = c :: cs) : pySplitLoop 0 s = [c :: cs] := by
  conv_lhs => rw [pySplitLoop]
  rw [h]

lemma pySplitLoop_succ_eq (k : Nat) (s : List Char) (c : Char) (cs : List Char)
    (h : dropSpaces s = c :: cs) (hc : pyIsSpace c = false) :
    pySplitLoop (Nat.succ k) s
      = (c :: (takeWord cs).1) :: pySplitLoop k (takeWord cs).2 := by
  conv_lhs => rw [pySplitLoop]
  rw [h]
  show (takeWord (c :: cs)).1 :: pySplitLoop k (takeWord (c :: cs)).2 = _
  rw [takeWord_cons c cs hc]

lemma pySplitLoop_mem : ∀ (n : Nat) (s : List Char), ∀ w ∈ pySplitLoop n s,
    ∃ c cs, w = c :: cs ∧ pyIsSpace c = false := by
  intro n
  induction n with
  | zero =>
    intro s w hw
    rcases dropSpaces_head s with h | ⟨c, cs, h, hc⟩
    · simp [pySplitLoop, h] at hw
    · rw [pySplitLoop_zero_eq s c cs h] at hw
      simp only [List.mem_singleton] at hw
      exact ⟨c, cs, hw, hc⟩
  | succ k ih =>
    intro s w hw
    rcases dropSpaces_head s with h | ⟨c, cs, h, hc⟩
    · simp [pySplitLoop, h] at hw
    · rw [pySplitLoop_succ_eq k s c cs h hc] at hw
      rcases List.mem_cons.mp hw with hw | hw
      · exact ⟨c, (takeWord cs).1, hw, hc⟩
      · exact ih _ w hw

lemma pySplit1_cons (c : Char) (cs : List Char) (h : pyIsSpace c = false) :
    pySplit1 (c :: cs) = (c :: (takeWord cs).1) :: pySplitLoop 0 (takeWord cs).2 := by
  rw [pySplit1]
  exact pySplitLoop_succ_eq 0 (c :: cs) c cs (dropSpaces_nonspace c cs h) h

lemma parse_start_command_ok (data : List (List Char)) :
    (∃ a b, parse_start_command data = .ok (.start a b)) ∨
    ∃ m, parse_start_command data = .error (.commandParseError m) := by
  match data with
  | [] => exact Or.inr ⟨"Wrong start command arguments", rfl⟩
  | d0 :: rest =>
    by_cases h1 : 2 < (pySplit d0).length
    · exact Or.inr ⟨"Too many start command arguments", by simp [parse_start_command, h1]⟩
    · by_cases h2 : (pySplit d0).length < 2
      · exact Or.inr ⟨"Too few start command arguments", by simp [parse_start_command, h1, h2]⟩
      · have hlen : (pySplit d0).length = 2 := by omega
        obtain ⟨a, b, hab⟩ := List.length_eq_two.mp hlen
        refine Or.inl ⟨a, b, ?_⟩
        simp [parse_start_command, h1, h2, hab, pyIndex, except_bind_ok]

lemma parse_stop_command_ok (data : List (List Char)) :
    (∃ a, parse_stop_command data = .ok (.stop a)) ∨
    ∃ m, parse_stop_command data = .error (.commandParseError m) := by
  match data with
  | [] => exact Or.inr ⟨"Wrong stop command arguments", rfl⟩
  | d0 :: rest =>
    by_cases h1 : (pySplit d0).length = 1
    · obtain ⟨a, ha⟩ := List.length_eq_one.mp h1
      refine Or.inl ⟨a, ?_⟩
      simp [parse_stop_command, h1, ha, pyIndex, except_bind_ok]
    · exact Or.inr ⟨"Unexpected stop command arguments", by simp [parse_stop_command, h1]⟩

lemma parse_hook_command_ok (data : List (List Char))
    (hd : ∀ w ∈ data, ∃ c cs, w = c :: cs ∧ pyIsSpace c = false) :
    (∃ a b, parse_hook_command data = .ok (.hook a b)) ∨
    ∃ m, parse_hook_command data = .error (.commandParseError m) := by
  match data with
  | [] => exact Or.inr ⟨"Wrong hook command arguments", rfl⟩
  | d0 :: rest =>
    obtain ⟨c, cs, rfl, hc⟩ := hd d0 (by simp)
    have hs := pySplit1_cons c cs hc
    by_cases hname :
        (pyEndsWith (c :: (takeWord cs).1) ':' = true ∧ ¬(takeWord cs).1 = [])
    · by_cases hws : pySplitLoop 0 (takeWord cs).2 = []
      · exact Or.inr ⟨"Empty words list",
          by simp [parse_hook_command, hs, hname.1, hname.2, hws]⟩
      · obtain ⟨w, ws, hw⟩ := List.exists_cons_of_ne_nil hws
        refine Or.inl ⟨(c :: (takeWord cs).1).dropLast, w, ?_⟩
        simp [parse_hook_command, hs, hname.1, hname.2, hw, pyIndex, except_bind_ok]
    · refine Or.inr ⟨"Hook name not found", ?_⟩
      simp [parse_hook_command, hs]
      intro h1 h2
      exact absurd ⟨h1, h2⟩ hname

lemma parse_threshold_command_ok (data : List (List Char))
    (hd : ∀ w ∈ data, ∃ c cs, w = c :: cs ∧ pyIsSpace c = false) :
    (∃ v, parse_threshold_command data = .ok (.threshold v)) ∨
    ∃ m, parse_threshold_command data = .error (.commandParseError m) := by
  match data with
  | [] => exact Or.inr ⟨"Too few threshold command arguments", rfl⟩
  | d0 :: rest =>
    obtain ⟨c, cs, rfl, hc⟩ := hd d0 (by simp)
    have hs := pySplit1_cons c cs hc
    cases hf : pyFloat (c :: (takeWord cs).1) with
    | none =>
      exact Or.inr ⟨"Unexpected threshold value", by simp [parse_threshold_command, hs, hf]⟩
    | some v =>
      by_cases hrest : pySplitLoop 0 (takeWord cs).2 = []
      · by_cases hv : v < 0 ∨ 1 < v
        · exact Or.inr ⟨"Wrong threshold value (0.0 <= value <= 1.0)",
            by simp [parse_threshold_command, hs, hf, hrest, hv]⟩
        · exact Or.inl ⟨v, by simp [parse_threshold_command, hs, hf, hrest, hv]⟩
      · exact Or.inr ⟨"Too many threshold command arguments",
          by simp [parse_threshold_command, hs, hf, hrest]⟩

/-- C10: for every command string whose first character is `/`, `parse_command`
returns a well-formed `CommandDesc` of one of the seven command kinds or
raises `CommandParseError`; the builtin exceptions of splitting, tuple
unpacking, indexing and float conversion never escape, so the single
`except CommandParseError` in `_process_command` covers every parse failure. -/
theorem c10_parse_command_totality (command : List Char)
    (h : command.head? = some '/') : parseOutcomeOk (parse_command command) := by
  match command with
  | [] => simp at h
  | c :: cs =>
    have hc : c = '/' := by simpa using h
    subst hc
    have hslash : pyIsSpace '/' = false := by decide
    rw [parse_command]
    rw [pySplit1_cons '/' cs hslash]
    show parseOutcomeOk (
      if ('/' :: (takeWord cs).1) = "/start".toList then
        (parse_start_command (pySplitLoop 0 (takeWord cs).2)).map
          (fun p => ⟨.START, p⟩)
      else if ('/' :: (takeWord cs).1) = "/stop".toList then
        (parse_stop_command (pySplitLoop 0 (takeWord cs).2)).map
          (fun p => ⟨.STOP, p⟩)
      else if ('/' :: (takeWord cs).1) = "/stop_all".toList then
        (parse_stopall_command (pySplitLoop 0 (takeWord cs).2)).map
          (fun p => ⟨.STOP_ALL, p⟩)
      else if ('/' :: (takeWord cs).1) = "/hook".toList then
        (parse_hook_command (pySplitLoop 0 (takeWord cs).2)).map
          (fun p => ⟨.HOOK, p⟩)
      else if ('/' :: (takeWord cs).1) = "/hooks".toList then
        (parse_hooks_command (pySplitLoop 0 (takeWord cs).2)).map
          (fun p => ⟨.ALL_HOOKS, p⟩)
      else if ('/' :: (takeWord cs).1) = "/threshold".toList then
        (parse_threshold_command (pySplitLoop 0 (takeWord cs).2)).map
          (fun p => ⟨.THRESHOLD, p⟩)
      else if ('/' :: (takeWord cs).1) = "/?".toList then
        parse_help_command.map (fun p => ⟨.HELP, p⟩)
      else .error (.commandParseError
        ("Unknown command " ++ String.mk ('/' :: (takeWord cs).1))))
    have hd := pySplitLoop_mem 0 (takeWord cs).2
    by_cases e1 : ('/' :: (takeWord cs).1) = "/start".toList
    · rw [if_pos e1]
      rcases parse_start_command_ok (pySplitLoop 0 (takeWord cs).2) with ⟨a, b, hok⟩ | ⟨m, herr⟩
      · rw [hok]; exact trivial
      · rw [herr]; exact trivial
    · rw [if_neg e1]
      by_cases e2 : ('/' :: (takeWord cs).1) = "/stop".toList
      · rw [if_pos e2]
        rcases parse_stop_command_ok (pySplitLoop 0 (takeWord cs).2) with ⟨a, hok⟩ | ⟨m, herr⟩
        · rw [hok]; exact trivial
        · rw [herr]; exact trivial
      · rw [if_neg e2]
        by_cases e3 : ('/' :: (takeWord cs).1) = "/stop_all".toList
        · rw [if_pos e3]
          cases h0 : pySplitLoop 0 (takeWord cs).2 with
          | nil => exact trivial
          | cons w ws => exact trivial
        · rw [if_neg e3]
          by_cases e4 : ('/' :: (takeWord cs).1) = "/hook".toList
          · rw [if_pos e4]
            rcases parse_hook_command_ok (pySplitLoop 0 (takeWord cs).2) hd with
              ⟨a, b, hok⟩ | ⟨m, herr⟩
            · rw [hok]; exact trivial
            · rw [herr]; exact trivial
          · rw [if_neg e4]
            by_cases e5 : ('/' :: (takeWord cs).1) = "/hooks".toList
            · rw [if_pos e5]
              cases h0 : pySplitLoop 0 (takeWord cs).2 with
              | nil => exact trivial
              | cons w ws => exact trivial
            · rw [if_neg e5]
              by_cases e6 : ('/' :: (takeWord cs).1) = "/threshold".toList
              · rw [if_pos e6]
                rcases parse_threshold_command_ok (pySplitLoop 0 (takeWord cs).2) hd with
                  ⟨v, hok⟩ | ⟨m, herr⟩
                · rw [hok]; exact trivial
                · rw [herr]; exact trivial
              · rw [if_neg e6]
                by_cases e7 : ('/' :: (takeWord cs).1) = "/?".toList
                · rw [if_pos e7]; exact trivial
                · rw [if_neg e7]; exact trivial

lemma zip_map_filterMap {α β : Type} (l : List α) (f : α → Bool) (g : α → β) :
    ((l.zip (l.map f)).filterMap (fun p => if p.2 then some (g p.1) else none))
      = (l.filter f).map g := by
  induction l with
  | nil => rfl
  | cons x xs ih =>
    by_cases h : f x <;> simp [h, ih]

lemma matcherMatch_fst (data : StreamFeedback) :
    (matcherMatch data).1
      = (data.subscribers.filter
          (subscriberPasses data.chat_message.message)).map (·.user) :=
  zip_map_filterMap data.subscribers (subscriberPasses data.chat_message.message) (·.user)

lemma matcherMatch_snd (data : StreamFeedback) :
    (matcherMatch data).2
      = if (matcherMatch data).1 ≠ [] then
          some ⟨data.streamer_name, data.chat_message, (matcherMatch data).1⟩
        else none := rfl

/-- C7: the Match Engine returns exactly the subscribers whose similarity
score between the message text and their own hook pattern meets or exceeds
their own threshold, in the input subscriber order (the `zip`-comprehension
equals an order-preserving filter); the comparison is inclusive (a score
equal to the threshold passes); the score is a pure function of the
message/pattern pair, so repeated evaluation is deterministic by
construction; and a batch is dispatched exactly when the passing set is
non-empty, carrying that set. -/
theorem c7_match_exact_filter (data : StreamFeedback) (a b : List Char) (t : Rat) :
    (matcherMatch data).1
      = (data.subscribers.filter
          (subscriberPasses data.chat_message.message)).map (·.user) ∧
    (seqMatcherRatioQ a b = t → ratio_passed a b t = true) ∧
    ((matcherMatch data).2 = none ↔ (matcherMatch data).1 = []) ∧
    (∀ fb, (matcherMatch data).2 = some fb →
      fb.subscribers = (matcherMatch data).1 ∧
      fb.streamer_name = data.streamer_name ∧
      fb.chat_message = data.chat_message) := by
  refine ⟨matcherMatch_fst data, ?_, ?_, ?_⟩
  · intro h
    simp [ratio_passed, h.symm.le]
  · rw [matcherMatch_snd data]
    by_cases h : (matcherMatch data).1 = [] <;> simp [h]
  · intro fb hfb
    rw [matcherMatch_snd data] at hfb
    by_cases h : (matcherMatch data).1 = []
    · simp [h] at hfb
    · simp [h] at hfb
      exact ⟨hfb.symm ▸ rfl, hfb.symm ▸ rfl, hfb.symm ▸ rfl⟩

/-- Subscriber A for the C7 witness: pattern identical to the message and
threshold exactly 1, exercising the inclusive boundary. -/
def c7UserA : User :=
  { name := "A", chat_id := 1, streamers := ["foo"],
    hooks := [("alert", "aba")], threshold := 1, startLockId := 0 }

/-- Subscriber B for the C7 witness: a pattern far from the message. -/
def c7UserB : User :=
  { name := "B", chat_id := 2, streamers := ["foo"],
    hooks := [("h", "xyz")], threshold := 1/2, startLockId := 0 }

/-- Feedback unit for the C7 witness. -/
def c7WitnessData : StreamFeedback :=
  { streamer_name := "foo",
    chat_message := { nickname := "bob", message := "aba", from_start := 5 },
    subscribers := [⟨c7UserA, "alert"⟩, ⟨c7UserB, "h"⟩] }

/-- Witness for C7: on a concrete two-subscriber feedback, the score of A's
identical pattern is exactly 1 and A's threshold of 1 still passes (inclusive
comparison), B fails, and exactly A is returned and dispatched as one batch. -/
theorem c7_match_exact_filter_witness :
    seqMatcherRatioQ "aba".toList "aba".toList = 1 ∧
    ratio_passed "aba".toList "aba".toList 1 = true ∧
    (matcherMatch c7WitnessData).1 = [c7UserA] ∧
    (matcherMatch c7WitnessData).2
      = some ⟨"foo", { nickname := "bob", message := "aba", from_start := 5 }, [c7UserA]⟩ := by
  have h := c7_match_exact_filter c7WitnessData "aba".toList "aba".toList 1
  have hmA : matchingSum ['a', 'b', 'a'] ['a', 'b', 'a'] 4 0 3 0 3 = 3 := by decide
  have hrA : seqMatcherRatioQ ['a', 'b', 'a'] ['a', 'b', 'a'] = 1 := by
    show calculateRatioQ (matchingSum ['a', 'b', 'a'] ['a', 'b', 'a'] 4 0 3 0 3) 6 = 1
    rw [hmA, calculateRatioQ]
    norm_num
  have hmB : matchingSum ['a', 'b', 'a'] ['x', 'y', 'z'] 4 0 3 0 3 = 0 := by decide
  have hrB : seqMatcherRatioQ ['a', 'b', 'a'] ['x', 'y', 'z'] = 0 := by
    show calculateRatioQ (matchingSum ['a', 'b', 'a'] ['x', 'y', 'z'] 4 0 3 0 3) 6 = 0
    rw [hmB, calculateRatioQ]
    norm_num
  have hA : subscriberPasses "aba" ⟨c7UserA, "alert"⟩ = true := by
    simp [subscriberPasses, c7UserA, pyGet?, ratio_passed, hrA]
  have hB : subscriberPasses "aba" ⟨c7UserB, "h"⟩ = false := by
    simp [subscriberPasses, c7UserB, pyGet?, ratio_passed, hrB]
  have hfst : (matcherMatch c7WitnessData).1 = [c7UserA] := by
    rw [h.1]
    simp [c7WitnessData, List.filter_cons, hA, hB]
  refine ⟨hrA, h.2.1 hrA, hfst, ?_⟩
  rw [matcherMatch_snd c7WitnessData, hfst]
  simp [c7WitnessData]

/-- Witness for C10: a concrete `/start` command parses to a well-formed start
description, and a malformed slash command is a `CommandParseError`. -/
theorem c10_parse_command_totality_witness :
    parseOutcomeOk (parse_command "/start foo alert".toList) ∧
    parse_command "/start foo alert".toList
      = .ok ⟨.START, .start "foo".toList "alert".toList⟩ ∧
    parse_command "/threshold zzz".toList
      = .error (.commandParseError "Unexpected threshold value") := by
  refine ⟨c10_parse_command_totality "/start foo alert".toList rfl, by rfl, by rfl⟩

lemma pyKeyAdd_contains (l : List String) (k : String) :
    (pyKeyAdd l k).contains k = true := by
  by_cases h : l.contains k <;> simp_all [pyKeyAdd]

lemma pyContains_eq_false_iff {V : Type} (d : List (String × V)) (k : String) :
    pyContains d k = false ↔ pyGet? d k = none := by
  rw [pyContains]
  cases pyGet? d k <;> simp

lemma start_success_char (st : ObserverState) (uname streamer hook_name pat : String)
    (desc : StreamerDesc) (user : User)
    (hu : pyGet? st.users uname = some user)
    (h1 : user.streamers.contains streamer = false)
    (h2 : pyGet? user.hooks hook_name = some pat) :
    process_start_command st uname streamer hook_name (.ok desc)
      = ⟨⟨pySet st.users uname { user with streamers := pyKeyAdd user.streamers streamer },
           pySet (if pyContains st.streamers streamer then st.streamers
                  else pySet st.streamers streamer ⟨streamer, []⟩) streamer
             ⟨(startSessionBase st streamer).name,
               pySet (startSessionBase st streamer).subs uname hook_name⟩⟩,
          [([uname], startNotifyMsg desc)],
          if pyContains st.streamers streamer then none else some streamer⟩ := by
  have h1' : streamer ∉ user.streamers := by simpa using h1
  by_cases hc : pyContains st.streamers streamer = true
  · obtain ⟨s, hs⟩ := Option.isSome_iff_exists.mp (by simpa [pyContains] using hc)
    simp [process_start_command, hu, h1', h2, hc, hs, startSessionBase]
  · have hc' : pyContains st.streamers streamer = false := by simpa using hc
    have hget : pyGet? st.streamers streamer = none :=
      (pyContains_eq_false_iff st.streamers streamer).mp hc'
    simp [process_start_command, hu, h1', h2, hc', hget, startSessionBase,
      pyGet?_pySet_self]

/-- C4: Start sends a notice and leaves every user, session and registry
component unchanged (and raises nothing) when the user already tracks the
broadcaster, when the hook name is undefined for that user, or when the
directory lookup reports not-found/offline; otherwise it creates a session
and starts its ingestion task exactly when no session exists for the
broadcaster (else it reuses the existing one), registers the subscription in
the session's subscriber map and the user's broadcaster map, and queues one
confirmation notice interpolating the broadcast start time and title. -/
theorem c4_start_semantics (st : ObserverState) (uname streamer hook_name : String)
    (user : User) (lookup : LookupOutcome)
    (hu : pyGet? st.users uname = some user) :
    (user.streamers.contains streamer = true →
      process_start_command st uname streamer hook_name lookup
        = ⟨st, [([uname], "Streamer " ++ streamer ++ " already tracked")], none⟩) ∧
    (user.streamers.contains streamer = false →
      pyGet? user.hooks hook_name = none →
      process_start_command st uname streamer hook_name lookup
        = ⟨st, [([uname], "Hook " ++ hook_name ++ " not found")], none⟩) ∧
    (∀ pat, user.streamers.contains streamer = false →
      pyGet? user.hooks hook_name = some pat →
      process_start_command st uname streamer hook_name .notFound
        = ⟨st, [([uname], "Stream " ++ streamer ++ " not exists or offline")], none⟩) ∧
    (∀ pat desc, user.streamers.contains streamer = false →
      pyGet? user.hooks hook_name = some pat →
      (process_start_command st uname streamer hook_name (.ok desc)).createdTask
          = (if pyContains st.streamers streamer then none else some streamer) ∧
      (process_start_command st uname streamer hook_name (.ok desc)).notices
          = [([uname], startNotifyMsg desc)] ∧
      pyGet? (process_start_command st uname streamer hook_name (.ok desc)).state.streamers
          streamer
          = some ⟨(startSessionBase st streamer).name,
              pySet (startSessionBase st streamer).subs uname hook_name⟩ ∧
      pyGet? (process_start_command st uname streamer hook_name (.ok desc)).state.users uname
          = some { user with streamers := pyKeyAdd user.streamers streamer } ∧
      (pyKeyAdd user.streamers streamer).contains streamer = true ∧
      pyGet? (pySet (startSessionBase st streamer).subs uname hook_name) uname
          = some hook_name) ∧
    (∀ desc, ∃ x y z, startNotifyMsg desc = x ++ desc.started_at ++ y ++ desc.title ++ z) := by
  refine ⟨?_, ?_, ?_, ?_, ?_⟩
  · intro hsub
    have hsub' : streamer ∈ user.streamers := by simpa using hsub
    simp [process_start_command, hu, hsub']
  · intro h1 h2
    have h1' : streamer ∉ user.streamers := by simpa using h1
    simp [process_start_command, hu, h1', h2]
  · intro pat h1 h2
    have h1' : streamer ∉ user.streamers := by simpa using h1
    simp [process_start_command, hu, h1', h2]
  · intro pat desc h1 h2
    rw [start_success_char st uname streamer hook_name pat desc user hu h1 h2]
    refine ⟨rfl, rfl, pyGet?_pySet_self _ _ _, pyGet?_pySet_self _ _ _,
      pyKeyAdd_contains _ _, pyGet?_pySet_self _ _ _⟩
  · intro desc
    exact ⟨"Now you tracking " ++ desc.user_name ++ "\n        started at: ",
      "\n        title: ", "\n        ", rfl⟩

/-- Witness for C4: on a concrete registry, each abort branch leaves the
state untouched with one notice, and the success branch creates the session,
starts the task, and registers both sides. -/
theorem c4_start_semantics_witness :
    process_start_command c4State "alice" "old" "alert" (.ok c4Desc)
      = ⟨c4State, [(["alice"], "Streamer old already tracked")], none⟩ ∧
    process_start_command c4State "alice" "new" "nope" (.ok c4Desc)
      = ⟨c4State, [(["alice"], "Hook nope not found")], none⟩ ∧
    process_start_command c4State "alice" "new" "alert" .notFound
      = ⟨c4State, [(["alice"], "Stream new not exists or offline")], none⟩ ∧
    (process_start_command c4State "alice" "new" "alert" (.ok c4Desc)).createdTask
      = some "new" ∧
    pyGet? (process_start_command c4State "alice" "new" "alert" (.ok c4Desc)).state.streamers
        "new"
      = some ⟨"new", [("alice", "alert")]⟩ ∧
    (process_start_command c4State "alice" "new" "alert" (.ok c4Desc)).notices
      = [(["alice"], startNotifyMsg c4Desc)] := by
  have hOld := c4_start_semantics c4State "alice" "old" "alert" c4User (.ok c4Desc) rfl
  have hNope := c4_start_semantics c4State "alice" "new" "nope" c4User (.ok c4Desc) rfl
  have hNew := c4_start_semantics c4State "alice" "new" "alert" c4User (.ok c4Desc) rfl
  have hNewNF := c4_start_semantics c4State "alice" "new" "alert" c4User .notFound rfl
  obtain ⟨hTask, hNotices, hSess, -, -, -⟩ := hNew.2.2.2.1 "x" c4Desc (by decide) rfl
  refine ⟨hOld.1 (by decide), hNope.2.1 (by decide) rfl,
    hNewNF.2.2.1 "x" (by decide) rfl, hTask.trans (by decide),
    hSess.trans (by decide), hNotices⟩

lemma exc_bind_ok {ε α β : Type} (a : α) (f : α → Except ε β) :
    ((Except.ok a : Except ε α) >>= f) = f a := rfl

/-- C5: when the user is subscribed (the code's `streamer in user.streamers
and streamer in self._streamers` holds and the session carries the
subscription), Stop removes the subscription from the user's broadcaster map
and from the session's subscriber map; if the subscriber map becomes empty
the ingestion task is cancelled and the session leaves the registry, so that
a subsequent Start for the same streamer takes its create-new-session branch;
when the user is not subscribed, Stop queues a notice and changes nothing. -/
theorem c5_stop_semantics (st : ObserverState) (uname streamer : String) (user : User)
    (sess : StreamSessionState)
    (hu : pyGet? st.users uname = some user)
    (hnd : (st.streamers.map (·.1)).Nodup)
    (hund : user.streamers.Nodup)
    (hsnd : (sess.subs.map (·.1)).Nodup) :
    (user.streamers.contains streamer = true →
      pyGet? st.streamers streamer = some sess →
      pyContains sess.subs uname = true →
      process_stop_command st uname streamer
        = .ok ⟨⟨pySet st.users uname
                  { user with streamers := user.streamers.erase streamer },
                if (pyDel sess.subs uname).isEmpty then pyDel st.streamers streamer
                else pySet st.streamers streamer ⟨sess.name, pyDel sess.subs uname⟩⟩,
              [([uname], "Stop tracking " ++ streamer)],
              if (pyDel sess.subs uname).isEmpty then some streamer else none⟩ ∧
      pyGet? (pySet st.users uname
          { user with streamers := user.streamers.erase streamer }) uname
        = some { user with streamers := user.streamers.erase streamer } ∧
      (user.streamers.erase streamer).contains streamer = false ∧
      pyGet? (pyDel sess.subs uname) uname = none ∧
      pyGet? (pyDel st.streamers streamer) streamer = none ∧
      ((pyDel sess.subs uname).isEmpty = true →
        ∀ hook2 pat desc u2,
          pyGet? (pySet st.users uname
              { user with streamers := user.streamers.erase streamer }) uname = some u2 →
          u2.streamers.contains streamer = false →
          pyGet? u2.hooks hook2 = some pat →
          (process_start_command
              ⟨pySet st.users uname { user with streamers := user.streamers.erase streamer },
                pyDel st.streamers streamer⟩ uname streamer hook2 (.ok desc)).createdTask
            = some streamer)) ∧
    (¬(user.streamers.contains streamer = true ∧ pyContains st.streamers streamer = true) →
      process_stop_command st uname streamer
        = .ok ⟨st, [([uname], "You do not tracking " ++ streamer)], none⟩) := by
  constructor
  · intro hsub hsess hmem
    have hcont : pyContains st.streamers streamer = true := by simp [pyContains, hsess]
    have hregnone : pyGet? (pyDel st.streamers streamer) streamer = none :=
      pyGet?_pyDel_self st.streamers streamer hnd
    refine ⟨?_, pyGet?_pySet_self _ _ _, ?_, pyGet?_pyDel_self sess.subs uname hsnd,
      hregnone, ?_⟩
    · simp only [process_stop_command, hu]
      rw [if_pos (by simp [hcont]; simpa using hsub)]
      rw [show pyGetE st.streamers streamer = .ok sess from by simp [pyGetE, hsess],
        exc_bind_ok,
        show pyDelE sess.subs uname = .ok (pyDel sess.subs uname) from by
          simp [pyDelE, hmem],
        exc_bind_ok]
    · have hmem' : streamer ∉ user.streamers.erase streamer := fun hm =>
        absurd rfl ((hund.mem_erase_iff.mp hm).1)
      simpa using hmem'
    · intro _ hook2 pat desc u2 hu2 hc2 hh2
      have hc2' : pyContains (pyDel st.streamers streamer) streamer = false :=
        (pyContains_eq_false_iff _ _).mpr hregnone
      rw [start_success_char
        ⟨pySet st.users uname { user with streamers := user.streamers.erase streamer },
          pyDel st.streamers streamer⟩ uname streamer hook2 pat desc u2 hu2 hc2 hh2]
      simp [hc2']
  · intro hn
    simp only [process_stop_command, hu]
    rw [if_neg (by simpa [Bool.and_eq_true] using hn)]

/-- Witness for C5 on a concrete registry: stopping the sole subscriber of
`foo` removes both sides, cancels the task, removes the session, and a
subsequent Start for `foo` creates fresh; stopping one of two subscribers of
`bar` keeps the session; a non-subscriber's Stop changes nothing. -/
theorem c5_stop_semantics_witness :
    process_stop_command c5State "alice" "foo"
      = .ok ⟨⟨[("alice", { c5Alice with streamers := ["bar"] }), ("bob", c5Bob)],
              [("bar", ⟨"bar", [("alice", "h"), ("bob", "h")]⟩)]⟩,
            [(["alice"], "Stop tracking foo")], some "foo"⟩ ∧
    process_stop_command c5State "alice" "bar"
      = .ok ⟨⟨[("alice", { c5Alice with streamers := ["foo"] }), ("bob", c5Bob)],
              [("foo", ⟨"foo", [("alice", "h")]⟩), ("bar", ⟨"bar", [("bob", "h")]⟩)]⟩,
            [(["alice"], "Stop tracking bar")], none⟩ ∧
    process_stop_command c5State "bob" "foo"
      = .ok ⟨c5State, [(["bob"], "You do not tracking foo")], none⟩ ∧
    (process_start_command
        ⟨[("alice", { c5Alice with streamers := ["bar"] }), ("bob", c5Bob)],
          [("bar", ⟨"bar", [("alice", "h"), ("bob", "h")]⟩)]⟩
        "alice" "foo" "h" (.ok c4Desc)).createdTask = some "foo" := by
  have hFoo := c5_stop_semantics c5State "alice" "foo" c5Alice ⟨"foo", [("alice", "h")]⟩
    rfl (by decide) (by decide) (by decide)
  have hBar := c5_stop_semantics c5State "alice" "bar" c5Alice
    ⟨"bar", [("alice", "h"), ("bob", "h")]⟩ rfl (by decide) (by decide) (by decide)
  have hBob := c5_stop_semantics c5State "bob" "foo" c5Bob ⟨"foo", [("alice", "h")]⟩
    rfl (by decide) (by decide) (by decide)
  obtain ⟨heqF, -, -, -, -, hfresh⟩ := hFoo.1 (by decide) rfl rfl
  obtain ⟨heqB, -, -, -, -, -⟩ := hBar.1 (by decide) rfl rfl
  refine ⟨heqF.trans (by rfl), heqB.trans (by rfl), hBob.2 (by decide), ?_⟩
  exact hfresh rfl "h" "x" c4Desc { c5Alice with streamers := ["bar"] } rfl (by decide) rfl

lemma pyContains_of_mem {V : Type} {d : List (String × V)} {p : String × V} {k : String}
    (hp : p ∈ d) (hk : (p.1 == k) = true) : pyContains d k = true := by
  have : (d.find? (fun q => q.1 == k)).isSome = true :=
    List.find?_isSome.mpr ⟨p, hp, hk⟩
  simpa [pyContains, pyGet?] using this

lemma pyContains_iff_mem_keys {V : Type} (d : List (String × V)) (k : String) :
    pyContains d k = true ↔ k ∈ d.map (·.1) := by
  induction d with
  | nil => simp [pyContains, pyGet?]
  | cons q tl ih =>
    by_cases hqk : (q.1 == k) = true
    · have h1 : q.1 = k := by simpa using hqk
      simp only [List.map_cons, List.mem_cons]
      constructor
      · intro _
        exact Or.inl h1.symm
      · intro _
        simp [pyContains, pyGet?_cons_eq q tl k hqk]
    · have hqk' : (q.1 == k) = false := by simpa using hqk
      rw [List.map_cons, pyContains_cons_ne q tl k hqk']
      constructor
      · intro h
        exact List.mem_cons.mpr (Or.inr (ih.mp h))
      · intro h
        rcases List.mem_cons.mp h with h | h
        · exact absurd (beq_iff_eq.mpr h.symm) (by simp [hqk'])
        · exact ih.mpr h

lemma mem_of_pyGet? {V : Type} {d : List (String × V)} {k : String} {v : V}
    (h : pyGet? d k = some v) : (k, v) ∈ d := by
  induction d with
  | nil => simp [pyGet?] at h
  | cons q tl ih =>
    by_cases hqk : (q.1 == k) = true
    · rw [pyGet?_cons_eq q tl k hqk] at h
      have h1 : q.1 = k := by simpa using hqk
      have h2 : q.2 = v := by simpa using h
      exact List.mem_cons.mpr (Or.inl (by rw [← h1, ← h2]))
    · rw [pyGet?_cons_ne q tl k (by simpa using hqk)] at h
      exact List.mem_cons.mpr (Or.inr (ih h))

lemma pyGet?_of_mem {V : Type} {d : List (String × V)} {p : String × V}
    (hnd : (d.map (·.1)).Nodup) (hp : p ∈ d) : pyGet? d p.1 = some p.2 := by
  induction d with
  | nil => cases hp
  | cons q tl ih =>
    rw [List.map_cons, List.nodup_cons] at hnd
    rcases List.mem_cons.mp hp with h | h
    · rw [h]
      exact pyGet?_cons_eq q tl q.1 (by simp)
    · have hne : (q.1 == p.1) = false := by
        refine beq_eq_false_iff_ne.mpr (fun he => hnd.1 ?_)
        rw [he]
        exact List.mem_map.mpr ⟨p, h, rfl⟩
      rw [pyGet?_cons_ne q tl p.1 hne]
      exact ih hnd.2 h

lemma mem_pySet {V : Type} {d : List (String × V)} {k : String} {v : V} :
    ∀ p ∈ pySet d k v, p = (k, v) ∨ (p ∈ d ∧ (p.1 == k) = false) := by
  intro p hp
  by_cases hc : pyContains d k
  · rw [pySet, if_pos hc] at hp
    obtain ⟨q, hq, hqe⟩ := List.mem_map.mp hp
    by_cases hqk : (q.1 == k) = true
    · left
      rw [← hqe, if_pos hqk]
    · right
      have hqk' : (q.1 == k) = false := by simpa using hqk
      rw [← hqe, if_neg hqk]
      exact ⟨hq, hqk'⟩
  · rw [pySet, if_neg hc] at hp
    rcases List.mem_append.mp hp with h | h
    · right
      refine ⟨h, beq_eq_false_iff_ne.mpr (fun he => ?_)⟩
      exact absurd (pyContains_of_mem h (by simpa using he)) hc
    · left
      simpa using h

lemma keys_pySet_contains {V : Type} (d : List (String × V)) (k : String) (v : V)
    (hc : pyContains d k = true) : (pySet d k v).map (·.1) = d.map (·.1) := by
  rw [pySet, if_pos hc, List.map_map]
  apply List.map_congr_left
  intro p _
  by_cases hpk : (p.1 == k) = true
  · simp only [Function.comp_apply, if_pos hpk]
    exact (beq_iff_eq.mp hpk).symm
  · simp only [Function.comp_apply, if_neg hpk]

lemma keys_pySet_not_contains {V : Type} (d : List (String × V)) (k : String) (v : V)
    (hc : pyContains d k = false) : (pySet d k v).map (·.1) = d.map (·.1) ++ [k] := by
  rw [pySet, if_neg (by simp [hc]), List.map_append]
  rfl

lemma nodup_keys_pySet {V : Type} (d : List (String × V)) (k : String) (v : V)
    (hnd : (d.map (·.1)).Nodup) : ((pySet d k v).map (·.1)).Nodup := by
  by_cases hc : pyContains d k = true
  · rwa [keys_pySet_contains d k v hc]
  · have hc' : pyContains d k = false := by simpa using hc
    rw [keys_pySet_not_contains d k v hc']
    refine List.Nodup.append hnd (List.nodup_singleton k) ?_
    intro x hx hx'
    rw [List.mem_singleton] at hx'
    subst hx'
    exact absurd ((pyContains_iff_mem_keys d x).mpr hx) (by simpa using hc)

lemma keys_pyDel_sublist {V : Type} (d : List (String × V)) (k : String) :
    ((pyDel d k).map (·.1)).Sublist (d.map (·.1)) :=
  (List.eraseP_sublist d).map (·.1)

lemma nodup_keys_pyDel {V : Type} (d : List (String × V)) (k : String)
    (hnd : (d.map (·.1)).Nodup) : ((pyDel d k).map (·.1)).Nodup :=
  hnd.sublist (keys_pyDel_sublist d k)

lemma mem_pyDel_subset {V : Type} {d : List (String × V)} {k : String} {p : String × V}
    (hp : p ∈ pyDel d k) : p ∈ d :=
  List.mem_of_mem_eraseP hp

lemma mem_pyDel_ne {V : Type} {d : List (String × V)} {k : String} {p : String × V}
    (hnd : (d.map (·.1)).Nodup) (hp : p ∈ pyDel d k) : (p.1 == k) = false := by
  by_contra h
  have hk : (p.1 == k) = true := by simpa using h
  have hcontains : pyContains (pyDel d k) k = true := pyContains_of_mem hp hk
  have : pyGet? (pyDel d k) k = none := pyGet?_pyDel_self d k hnd
  rw [pyContains, this] at hcontains
  simp at hcontains

lemma pyContains_pySet_ne {V : Type} (d : List (String × V)) (k k' : String) (v : V)
    (h : (k == k') = false) : pyContains (pySet d k v) k' = pyContains d k' := by
  rw [pyContains, pyContains, pyGet?_pySet_ne d k k' v h]

lemma pyContains_pyDel_ne {V : Type} (d : List (String × V)) (k k' : String)
    (h : (k == k') = false) : pyContains (pyDel d k) k' = pyContains d k' := by
  rw [pyContains, pyContains, pyGet?_pyDel_ne d k k' h]

lemma pyContains_pySet_self {V : Type} (d : List (String × V)) (k : String) (v : V) :
    pyContains (pySet d k v) k = true := by
  rw [pyContains, pyGet?_pySet_self]
  rfl

lemma pyGet?_pySet {V : Type} (d : List (String × V)) (k k' : String) (v : V) :
    pyGet? (pySet d k v) k' = if k = k' then some v else pyGet? d k' := by
  by_cases h : k = k'
  · subst h
    rw [if_pos rfl]
    exact pyGet?_pySet_self d k v
  · rw [if_neg h]
    exact pyGet?_pySet_ne d k k' v (beq_eq_false_iff_ne.mpr h)

lemma pyGet?_pyDel {V : Type} (d : List (String × V)) (k k' : String)
    (hnd : (d.map (·.1)).Nodup) :
    pyGet? (pyDel d k) k' = if k = k' then none else pyGet? d k' := by
  by_cases h : k = k'
  · subst h
    rw [if_pos rfl]
    exact pyGet?_pyDel_self d k hnd
  · rw [if_neg h]
    exact pyGet?_pyDel_ne d k k' (beq_eq_false_iff_ne.mpr h)

lemma inv_init : Invariant ⟨[], []⟩ := by
  constructor <;> simp

lemma inv_update_user (st : ObserverState) (uname : String) (user user' : User)
    (hu : pyGet? st.users uname = some user)
    (hname : user'.name = user.name)
    (hstreamers : user'.streamers = user.streamers)
    (h : Invariant st) : Invariant ⟨pySet st.users uname user', st.streamers⟩ := by
  have hmemU : (uname, user) ∈ st.users := mem_of_pyGet? hu
  have hc : pyContains st.users uname = true := by simp [pyContains, hu]
  constructor
  · show ((pySet st.users uname user').map (·.1)).Nodup
    rw [keys_pySet_contains st.users uname user' hc]
    exact h.usersNodup
  · exact h.streamersNodup
  · intro p hp
    rcases mem_pySet p hp with rfl | ⟨hmem, _⟩
    · show user'.name = uname
      rw [hname]
      exact h.usersKeyed (uname, user) hmemU
    · exact h.usersKeyed p hmem
  · exact h.sessionsKeyed
  · intro p hp
    rcases mem_pySet p hp with rfl | ⟨hmem, _⟩
    · show user'.streamers.Nodup
      rw [hstreamers]
      exact h.userStreamersNodup (uname, user) hmemU
    · exact h.userStreamersNodup p hmem
  · exact h.subsNodup
  · intro p hp s hs
    rcases mem_pySet p hp with rfl | ⟨hmem, _⟩
    · change s ∈ user'.streamers at hs
      rw [hstreamers] at hs
      exact h.userToSession (uname, user) hmemU s hs
    · exact h.userToSession p hmem s hs
  · intro q hq e he
    obtain ⟨u, hu2, hcont⟩ := h.sessionToUser q hq e he
    by_cases heq : uname = e.1
    · rw [← heq, hu] at hu2
      injection hu2 with hu2
      subst hu2
      refine ⟨user', ?_, by rw [hstreamers]; exact hcont⟩
      rw [← heq]
      exact pyGet?_pySet_self st.users uname user'
    · refine ⟨u, ?_, hcont⟩
      rw [pyGet?_pySet_ne st.users uname e.1 user' (beq_eq_false_iff_ne.mpr heq)]
      exact hu2

lemma inv_get_user (st : ObserverState) (name : String) (cid : Int)
    (h : Invariant st) : Invariant (get_user st name cid).1 := by
  cases hg : pyGet? st.users name with
  | some u =>
    have heq : (get_user st name cid).1 = st := by simp [get_user, hg]
    rwa [heq]
  | none =>
    have heq : (get_user st name cid).1
        = ⟨pySet st.users name
            { name := name, chat_id := cid, streamers := [], hooks := [],
              threshold := 1/2, startLockId := userDataclassDefaultLockId },
           st.streamers⟩ := by
      simp [get_user, hg]
    rw [heq]
    constructor
    · exact nodup_keys_pySet _ _ _ h.usersNodup
    · exact h.streamersNodup
    · intro p hp
      rcases mem_pySet p hp with rfl | ⟨hmem, _⟩
      · rfl
      · exact h.usersKeyed p hmem
    · exact h.sessionsKeyed
    · intro p hp
      rcases mem_pySet p hp with rfl | ⟨hmem, _⟩
      · exact List.nodup_nil
      · exact h.userStreamersNodup p hmem
    · exact h.subsNodup
    · intro p hp s hs
      rcases mem_pySet p hp with rfl | ⟨hmem, _⟩
      · simp at hs
      · exact h.userToSession p hmem s hs
    · intro q hq e he
      obtain ⟨u, hu, hcont⟩ := h.sessionToUser q hq e he
      refine ⟨u, ?_, hcont⟩
      have hne : (name == e.1) = false := by
        refine beq_eq_false_iff_ne.mpr (fun heq2 => ?_)
        rw [← heq2, hg] at hu
        cases hu
      rw [pyGet?_pySet_ne st.users name e.1 _ hne]
      exact hu

lemma inv_hook (st : ObserverState) (uname hook_name hook_str : String)
    (h : Invariant st) :
    Invariant (process_hook_command st uname hook_name hook_str).1 := by
  cases hg : pyGet? st.users uname with
  | none => simpa [process_hook_command, hg] using h
  | some user =>
    have heq : (process_hook_command st uname hook_name hook_str).1
        = ⟨pySet st.users uname
            { user with hooks := pySet user.hooks hook_name hook_str },
           st.streamers⟩ := by
      simp [process_hook_command, hg]
    rw [heq]
    exact inv_update_user st uname user _ hg rfl rfl h

lemma inv_threshold (st : ObserverState) (uname : String) (t : Rat)
    (h : Invariant st) : Invariant (process_threshold_command st uname t).1 := by
  cases hg : pyGet? st.users uname with
  | none => simpa [process_threshold_command, hg] using h
  | some user =>
    have heq : (process_threshold_command st uname t).1
        = ⟨pySet st.users uname { user with threshold := t }, st.streamers⟩ := by
      simp [process_threshold_command, hg]
    rw [heq]
    exact inv_update_user st uname user _ hg rfl rfl h

lemma mem_pyKeyAdd {l : List String} {k s : String} (hs : s ∈ pyKeyAdd l k) :
    s ∈ l ∨ s = k := by
  by_cases h : k ∈ l
  · left
    simpa [pyKeyAdd, h] using hs
  · rw [pyKeyAdd] at hs
    simp [h] at hs
    exact hs

lemma contains_pyKeyAdd_mono {l : List String} {k k' : String}
    (h : l.contains k' = true) : (pyKeyAdd l k).contains k' = true := by
  have hm : k' ∈ l := by simpa using h
  by_cases hc : k ∈ l
  · simpa [pyKeyAdd, hc] using hm
  · simp [pyKeyAdd, hc]
    exact Or.inl hm

lemma nodup_pyKeyAdd {l : List String} {k : String} (hnd : l.Nodup) :
    (pyKeyAdd l k).Nodup := by
  by_cases hc : k ∈ l
  · simpa [pyKeyAdd, hc] using hnd
  · rw [pyKeyAdd, if_neg (by simpa using hc)]
    rw [List.nodup_append]
    exact ⟨hnd, List.nodup_singleton k, by simpa [List.disjoint_singleton] using hc⟩

lemma startSessionBase_name (st : ObserverState) (streamer : String)
    (h : Invariant st) : (startSessionBase st streamer).name = streamer := by
  rw [startSessionBase]
  cases hg : pyGet? st.streamers streamer with
  | none => rfl
  | some s => exact h.sessionsKeyed (streamer, s) (mem_of_pyGet? hg)

lemma startSessionBase_subsNodup (st : ObserverState) (streamer : String)
    (h : Invariant st) : ((startSessionBase st streamer).subs.map (·.1)).Nodup := by
  rw [startSessionBase]
  cases hg : pyGet? st.streamers streamer with
  | none => simp
  | some s => exact h.subsNodup (streamer, s) (mem_of_pyGet? hg)

lemma inv_start_success_core (st : ObserverState) (uname streamer hook_name : String)
    (user : User) (base : StreamSessionState)
    (B : List (String × StreamSessionState))
    (h : Invariant st)
    (hg : pyGet? st.users uname = some user)
    (h1 : streamer ∉ user.streamers)
    (hbase_name : base.name = streamer)
    (hbase_nodup : (base.subs.map (·.1)).Nodup)
    (hbase_subs_old : ∀ e ∈ base.subs,
      ∃ u, pyGet? st.users e.1 = some u ∧ u.streamers.contains streamer = true)
    (hBnodup : (B.map (·.1)).Nodup)
    (hBcontains : pyContains B streamer = true)
    (hmemB : ∀ q ∈ B, q ∈ st.streamers ∨ q = (streamer, ⟨streamer, []⟩))
    (hBget_ne : ∀ s, s ≠ streamer → pyGet? B s = pyGet? st.streamers s)
    (hbase_get : ∀ sess, pyGet? st.streamers streamer = some sess → base = sess) :
    Invariant ⟨pySet st.users uname { user with streamers := pyKeyAdd user.streamers streamer },
               pySet B streamer ⟨base.name, pySet base.subs uname hook_name⟩⟩ := by
  have hmemU : (uname, user) ∈ st.users := mem_of_pyGet? hg
  have hcU : pyContains st.users uname = true := by simp [pyContains, hg]
  constructor
  · show ((pySet st.users uname _).map (·.1)).Nodup
    rw [keys_pySet_contains st.users uname _ hcU]
    exact h.usersNodup
  · show ((pySet B streamer _).map (·.1)).Nodup
    rw [keys_pySet_contains B streamer _ hBcontains]
    exact hBnodup
  · intro p hp
    rcases mem_pySet p hp with rfl | ⟨hmem, _⟩
    · show user.name = uname
      exact h.usersKeyed (uname, user) hmemU
    · exact h.usersKeyed p hmem
  · intro q hq
    rcases mem_pySet q hq with rfl | ⟨hqB, hqne⟩
    · exact hbase_name
    · rcases hmemB q hqB with hold | rfl
      · exact h.sessionsKeyed q hold
      · simp at hqne
  · intro p hp
    rcases mem_pySet p hp with rfl | ⟨hmem, _⟩
    · show (pyKeyAdd user.streamers streamer).Nodup
      exact nodup_pyKeyAdd (h.userStreamersNodup (uname, user) hmemU)
    · exact h.userStreamersNodup p hmem
  · intro q hq
    rcases mem_pySet q hq with rfl | ⟨hqB, hqne⟩
    · show ((pySet base.subs uname hook_name).map (·.1)).Nodup
      exact nodup_keys_pySet base.subs uname hook_name hbase_nodup
    · rcases hmemB q hqB with hold | rfl
      · exact h.subsNodup q hold
      · simp at hqne
  · intro p hp s hs
    rcases mem_pySet p hp with rfl | ⟨hpold, hpne⟩
    · change s ∈ pyKeyAdd user.streamers streamer at hs
      rcases mem_pyKeyAdd hs with hsold | rfl
      · obtain ⟨sess, hsess, hcont⟩ := h.userToSession (uname, user) hmemU s hsold
        have hsne : s ≠ streamer := fun he => h1 (he ▸ hsold)
        refine ⟨sess, ?_, hcont⟩
        rw [pyGet?_pySet_ne B streamer s _
            (beq_eq_false_iff_ne.mpr (Ne.symm hsne)),
          hBget_ne s hsne]
        exact hsess
      · exact ⟨⟨base.name, pySet base.subs uname hook_name⟩,
          pyGet?_pySet_self B s _,
          pyContains_pySet_self base.subs uname hook_name⟩
    · obtain ⟨sess, hsess, hcont⟩ := h.userToSession p hpold s hs
      by_cases hse : s = streamer
      · subst hse
        have hbeq : base = sess := hbase_get sess hsess
        refine ⟨⟨base.name, pySet base.subs uname hook_name⟩,
          pyGet?_pySet_self B s _, ?_⟩
        have hp1 : p.1 ≠ uname := by simpa using hpne
        rw [pyContains_pySet_ne base.subs uname p.1 hook_name
            (beq_eq_false_iff_ne.mpr (Ne.symm hp1)),
          hbeq]
        exact hcont
      · refine ⟨sess, ?_, hcont⟩
        rw [pyGet?_pySet_ne B streamer s _
            (beq_eq_false_iff_ne.mpr (Ne.symm hse)),
          hBget_ne s hse]
        exact hsess
  · intro q hq e he
    rcases mem_pySet q hq with rfl | ⟨hqB, hqne⟩
    · change e ∈ pySet base.subs uname hook_name at he
      rcases mem_pySet e he with rfl | ⟨heold, hene⟩
      · refine ⟨{ user with streamers := pyKeyAdd user.streamers streamer },
          pyGet?_pySet_self st.users _ _, ?_⟩
        show (pyKeyAdd user.streamers streamer).contains streamer = true
        exact pyKeyAdd_contains user.streamers streamer
      · obtain ⟨u, hu2, hcont⟩ := hbase_subs_old e heold
        have hene' : e.1 ≠ uname := by simpa using hene
        refine ⟨u, ?_, hcont⟩
        rw [pyGet?_pySet_ne st.users uname e.1 _
            (beq_eq_false_iff_ne.mpr (Ne.symm hene'))]
        exact hu2
    · rcases hmemB q hqB with hold | rfl
      · obtain ⟨u, hu2, hcont⟩ := h.sessionToUser q hold e he
        by_cases heu : e.1 = uname
        · rw [heu, hg] at hu2
          injection hu2 with hu2
          subst hu2
          refine ⟨{ user with streamers := pyKeyAdd user.streamers streamer }, ?_, ?_⟩
          · rw [heu]
            exact pyGet?_pySet_self st.users uname _
          · show (pyKeyAdd user.streamers streamer).contains q.1 = true
            exact contains_pyKeyAdd_mono hcont
        · refine ⟨u, ?_, hcont⟩
          rw [pyGet?_pySet_ne st.users uname e.1 _
              (beq_eq_false_iff_ne.mpr (Ne.symm heu))]
          exact hu2
      · simp at hqne

lemma inv_start (st : ObserverState) (uname streamer hook_name : String)
    (lookup : LookupOutcome) (h : Invariant st) :
    Invariant (process_start_command st uname streamer hook_name lookup).state := by
  cases hg : pyGet? st.users uname with
  | none =>
    have heq : (process_start_command st uname streamer hook_name lookup).state = st := by
      simp [process_start_command, hg]
    rwa [heq]
  | some user =>
    by_cases h1 : streamer ∈ user.streamers
    · have heq : (process_start_command st uname streamer hook_name lookup).state = st := by
        simp [process_start_command, hg, h1]
      rwa [heq]
    · cases hh : pyGet? user.hooks hook_name with
      | none =>
        have heq : (process_start_command st uname streamer hook_name lookup).state = st := by
          simp [process_start_command, hg, h1, hh]
        rwa [heq]
      | some pat =>
        cases lookup with
        | notFound =>
          have heq : (process_start_command st uname streamer hook_name .notFound).state
              = st := by
            simp [process_start_command, hg, h1, hh]
          rwa [heq]
        | ok desc =>
          have h1f : user.streamers.contains streamer = false := by simpa using h1
          rw [start_success_char st uname streamer hook_name pat desc user hg h1f hh]
          refine inv_start_success_core st uname streamer hook_name user
            (startSessionBase st streamer) _ h hg h1
            (startSessionBase_name st streamer h)
            (startSessionBase_subsNodup st streamer h)
            ?_ ?_ ?_ ?_ ?_ ?_
          · intro e he
            rw [startSessionBase] at he
            cases hsg : pyGet? st.streamers streamer with
            | none =>
              rw [hsg] at he
              simp at he
            | some s0 =>
              rw [hsg] at he
              exact h.sessionToUser (streamer, s0) (mem_of_pyGet? hsg) e he
          · by_cases hc : pyContains st.streamers streamer = true
            · rw [if_pos hc]
              exact h.streamersNodup
            · rw [if_neg (by simp [hc])]
              exact nodup_keys_pySet st.streamers streamer _ h.streamersNodup
          · by_cases hc : pyContains st.streamers streamer = true
            · rw [if_pos hc]
              exact hc
            · rw [if_neg (by simp [hc])]
              exact pyContains_pySet_self st.streamers streamer _
          · intro q hq
            by_cases hc : pyContains st.streamers streamer = true
            · rw [if_pos hc] at hq
              exact Or.inl hq
            · rw [if_neg (by simp [hc])] at hq
              rcases mem_pySet q hq with rfl | ⟨hmem, _⟩
              · exact Or.inr rfl
              · exact Or.inl hmem
          · intro s hs
            by_cases hc : pyContains st.streamers streamer = true
            · rw [if_pos hc]
            · rw [if_neg (by simp [hc])]
              exact pyGet?_pySet_ne st.streamers streamer s _
                (beq_eq_false_iff_ne.mpr (Ne.symm hs))
          · intro sess hsess
            rw [startSessionBase, hsess]

lemma exc_bind_error {ε α β : Type} (e : ε) (f : α → Except ε β) :
    ((Except.error e : Except ε α) >>= f) = .error e := rfl

lemma not_isEmpty_of_pyContains {V : Type} {d : List (String × V)} {k : String}
    (h : pyContains d k = true) : d.isEmpty = false := by
  cases d with
  | nil => simp [pyContains, pyGet?] at h
  | cons q tl => rfl

lemma contains_erase_of_ne {l : List String} {k k' : String}
    (h : l.contains k' = true) (hne : k' ≠ k) : (l.erase k).contains k' = true := by
  have hm : k' ∈ l := by simpa using h
  simpa using (List.mem_erase_of_ne hne).mpr hm

/-- Invariant preservation for the subscribed branch of Stop: the state
`⟨users with uname's map erased at streamer, streamers with the subscription
deleted (or the whole session when emptied)⟩`. -/
lemma inv_stop_core (st : ObserverState) (uname streamer : String) (user : User)
    (sess : StreamSessionState)
    (h : Invariant st)
    (hg : pyGet? st.users uname = some user)
    (hsess : pyGet? st.streamers streamer = some sess) :
    Invariant ⟨pySet st.users uname { user with streamers := user.streamers.erase streamer },
      if (pyDel sess.subs uname).isEmpty then pyDel st.streamers streamer
      else pySet st.streamers streamer ⟨sess.name, pyDel sess.subs uname⟩⟩ := by
  have hmemU : (uname, user) ∈ st.users := mem_of_pyGet? hg
  have hcU : pyContains st.users uname = true := by simp [pyContains, hg]
  have hmemS : (streamer, sess) ∈ st.streamers := mem_of_pyGet? hsess
  have hSname : sess.name = streamer := h.sessionsKeyed (streamer, sess) hmemS
  have hSnodup : (sess.subs.map (·.1)).Nodup := h.subsNodup (streamer, sess) hmemS
  by_cases hE : (pyDel sess.subs uname).isEmpty = true
  · rw [if_pos hE]
    constructor
    · show ((pySet st.users uname _).map (·.1)).Nodup
      rw [keys_pySet_contains st.users uname _ hcU]
      exact h.usersNodup
    · exact nodup_keys_pyDel st.streamers streamer h.streamersNodup
    · intro p hp
      rcases mem_pySet p hp with rfl | ⟨hmem, _⟩
      · exact h.usersKeyed (uname, user) hmemU
      · exact h.usersKeyed p hmem
    · intro q hq
      exact h.sessionsKeyed q (mem_pyDel_subset hq)
    · intro p hp
      rcases mem_pySet p hp with rfl | ⟨hmem, _⟩
      · exact (h.userStreamersNodup (uname, user) hmemU).erase streamer
      · exact h.userStreamersNodup p hmem
    · intro q hq
      exact h.subsNodup q (mem_pyDel_subset hq)
    · intro p hp s hs
      rcases mem_pySet p hp with rfl | ⟨hpold, hpne⟩
      · change s ∈ user.streamers.erase streamer at hs
        have hnd := h.userStreamersNodup (uname, user) hmemU
        obtain ⟨hsne, hsold⟩ := hnd.mem_erase_iff.mp hs
        obtain ⟨sess2, hsess2, hcont2⟩ := h.userToSession (uname, user) hmemU s hsold
        refine ⟨sess2, ?_, hcont2⟩
        rw [pyGet?_pyDel_ne st.streamers streamer s
            (beq_eq_false_iff_ne.mpr (Ne.symm hsne))]
        exact hsess2
      · obtain ⟨sess2, hsess2, hcont2⟩ := h.userToSession p hpold s hs
        by_cases hse : s = streamer
        · exfalso
          rw [hse, hsess] at hsess2
          injection hsess2 with hsess2
          rw [← hsess2] at hcont2
          have hp1 : p.1 ≠ uname := by simpa using hpne
          have hc2 : pyContains (pyDel sess.subs uname) p.1 = true := by
            rw [pyContains_pyDel_ne sess.subs uname p.1
                (beq_eq_false_iff_ne.mpr (Ne.symm hp1))]
            exact hcont2
          rw [not_isEmpty_of_pyContains hc2] at hE
          cases hE
        · refine ⟨sess2, ?_, hcont2⟩
          rw [pyGet?_pyDel_ne st.streamers streamer s
              (beq_eq_false_iff_ne.mpr (Ne.symm hse))]
          exact hsess2
    · intro q hq e he
      have hqold := mem_pyDel_subset hq
      have hqne : (q.1 == streamer) = false := mem_pyDel_ne h.streamersNodup hq
      obtain ⟨u, hu2, hcont2⟩ := h.sessionToUser q hqold e he
      by_cases heu : e.1 = uname
      · rw [heu, hg] at hu2
        injection hu2 with hu2
        subst hu2
        refine ⟨{ user with streamers := user.streamers.erase streamer }, ?_, ?_⟩
        · rw [heu]
          exact pyGet?_pySet_self st.users uname _
        · show (user.streamers.erase streamer).contains q.1 = true
          exact contains_erase_of_ne hcont2 (by simpa using hqne)
      · refine ⟨u, ?_, hcont2⟩
        rw [pyGet?_pySet_ne st.users uname e.1 _
            (beq_eq_false_iff_ne.mpr (Ne.symm heu))]
        exact hu2
  · rw [if_neg hE]
    have hcS : pyContains st.streamers streamer = true := by simp [pyContains, hsess]
    constructor
    · show ((pySet st.users uname _).map (·.1)).Nodup
      rw [keys_pySet_contains st.users uname _ hcU]
      exact h.usersNodup
    · show ((pySet st.streamers streamer _).map (·.1)).Nodup
      rw [keys_pySet_contains st.streamers streamer _ hcS]
      exact h.streamersNodup
    · intro p hp
      rcases mem_pySet p hp with rfl | ⟨hmem, _⟩
      · exact h.usersKeyed (uname, user) hmemU
      · exact h.usersKeyed p hmem
    · intro q hq
      rcases mem_pySet q hq with rfl | ⟨hmem, _⟩
      · exact hSname
      · exact h.sessionsKeyed q hmem
    · intro p hp
      rcases mem_pySet p hp with rfl | ⟨hmem, _⟩
      · exact (h.userStreamersNodup (uname, user) hmemU).erase streamer
      · exact h.userStreamersNodup p hmem
    · intro q hq
      rcases mem_pySet q hq with rfl | ⟨hmem, _⟩
      · show (((pyDel sess.subs uname).map (·.1))).Nodup
        exact nodup_keys_pyDel sess.subs uname hSnodup
      · exact h.subsNodup q hmem
    · intro p hp s hs
      rcases mem_pySet p hp with rfl | ⟨hpold, hpne⟩
      · change s ∈ user.streamers.erase streamer at hs
        have hnd := h.userStreamersNodup (uname, user) hmemU
        obtain ⟨hsne, hsold⟩ := hnd.mem_erase_iff.mp hs
        obtain ⟨sess2, hsess2, hcont2⟩ := h.userToSession (uname, user) hmemU s hsold
        refine ⟨sess2, ?_, hcont2⟩
        rw [pyGet?_pySet_ne st.streamers streamer s _
            (beq_eq_false_iff_ne.mpr (Ne.symm hsne))]
        exact hsess2
      · obtain ⟨sess2, hsess2, hcont2⟩ := h.userToSession p hpold s hs
        by_cases hse : s = streamer
        · rw [hse, hsess] at hsess2
          injection hsess2 with hsess2
          rw [← hsess2] at hcont2
          have hp1 : p.1 ≠ uname := by simpa using hpne
          refine ⟨⟨sess.name, pyDel sess.subs uname⟩, ?_, ?_⟩
          · rw [hse]
            exact pyGet?_pySet_self st.streamers streamer _
          · show pyContains (pyDel sess.subs uname) p.1 = true
            rw [pyContains_pyDel_ne sess.subs uname p.1
                (beq_eq_false_iff_ne.mpr (Ne.symm hp1))]
            exact hcont2
        · refine ⟨sess2, ?_, hcont2⟩
          rw [pyGet?_pySet_ne st.streamers streamer s _
              (beq_eq_false_iff_ne.mpr (Ne.symm hse))]
          exact hsess2
    · intro q hq e he
      rcases mem_pySet q hq with rfl | ⟨hqold, hqne⟩
      · change e ∈ pyDel sess.subs uname at he
        have heold := mem_pyDel_subset he
        have hene : (e.1 == uname) = false := mem_pyDel_ne hSnodup he
        obtain ⟨u, hu2, hcont2⟩ := h.sessionToUser (streamer, sess) hmemS e heold
        refine ⟨u, ?_, hcont2⟩
        rw [pyGet?_pySet_ne st.users uname e.1 _
            (beq_eq_false_iff_ne.mpr (Ne.symm (by simpa using hene)))]
        exact hu2
      · obtain ⟨u, hu2, hcont2⟩ := h.sessionToUser q hqold e he
        by_cases heu : e.1 = uname
        · rw [heu, hg] at hu2
          injection hu2 with hu2
          subst hu2
          refine ⟨{ user with streamers := user.streamers.erase streamer }, ?_, ?_⟩
          · rw [heu]
            exact pyGet?_pySet_self st.users uname _
          · show (user.streamers.erase streamer).contains q.1 = true
            exact contains_erase_of_ne hcont2 (by simpa using hqne)
        · refine ⟨u, ?_, hcont2⟩
          rw [pyGet?_pySet_ne st.users uname e.1 _
              (beq_eq_false_iff_ne.mpr (Ne.symm heu))]
          exact hu2

lemma inv_stop (st : ObserverState) (uname streamer : String) (r : StopResult)
    (h : Invariant st)
    (hok : process_stop_command st uname streamer = .ok r) : Invariant r.state := by
  rw [process_stop_command] at hok
  split at hok
  · cases hok
  · rename_i user hg
    split at hok
    · rename_i hcond
      have hcont : pyContains st.streamers streamer = true := by
        have h2 := hcond
        simp only [Bool.and_eq_true] at h2
        exact h2.2
      obtain ⟨sess, hsess⟩ :=
        Option.isSome_iff_exists.mp (by simpa [pyContains] using hcont)
      rw [show pyGetE st.streamers streamer = .ok sess from by simp [pyGetE, hsess],
        exc_bind_ok] at hok
      by_cases hmem : pyContains sess.subs uname = true
      · rw [show pyDelE sess.subs uname = .ok (pyDel sess.subs uname) from by
            simp [pyDelE, hmem],
          exc_bind_ok] at hok
        injection hok with hok
        subst hok
        exact inv_stop_core st uname streamer user sess h hg hsess
      · rw [show pyDelE sess.subs uname = .error (.keyError uname) from by
            simp [pyDelE, hmem],
          exc_bind_error] at hok
        cases hok
    · injection hok with hok
      subst hok
      exact h

lemma pyDel_of_not_contains {V : Type} {d : List (String × V)} {k : String}
    (h : pyContains d k = false) : pyDel d k = d := by
  rw [pyDel]
  apply List.eraseP_of_forall_not
  intro a ha hak
  exact absurd (pyContains_of_mem ha hak) (by simp [h])

lemma unsubscribe_all_loop_ok (sname : String) :
    ∀ (subs : List (String × String)) (users : List (String × User)),
    (subs.map (·.1)).Nodup →
    (∀ e ∈ subs, pyContains users e.1 = true) →
    (∀ e ∈ subs, ∀ u, pyGet? users e.1 = some u → u.streamers.contains sname = true) →
    ∃ users', unsubscribe_all_loop sname subs users = .ok users' ∧
      users'.map (·.1) = users.map (·.1) ∧
      (∀ k, k ∉ subs.map (·.1) → pyGet? users' k = pyGet? users k) ∧
      (∀ k u, k ∈ subs.map (·.1) → pyGet? users k = some u →
        pyGet? users' k = some { u with streamers := u.streamers.erase sname }) := by
  intro subs
  induction subs with
  | nil =>
    intro users _ _ _
    exact ⟨users, rfl, rfl, fun k _ => rfl, fun k u hk => by simp at hk⟩
  | cons e rest ih =>
    intro users hnd hpres hcont
    rw [List.map_cons, List.nodup_cons] at hnd
    obtain ⟨u, hu⟩ :=
      Option.isSome_iff_exists.mp (by simpa [pyContains] using hpres e (by simp))
    have huc : u.streamers.contains sname = true := hcont e (by simp) u hu
    have humem : sname ∈ u.streamers := by simpa using huc
    have hdel : pyKeyDelE u.streamers sname = .ok (u.streamers.erase sname) := by
      simp [pyKeyDelE, humem]
    obtain ⟨users', hloop, hkeys, hne, hyes⟩ :=
      ih (pySet users e.1 { u with streamers := u.streamers.erase sname }) hnd.2
        (fun e2 he2 => by
          rw [pyContains, pyGet?_pySet_ne users e.1 e2.1 _
            (beq_eq_false_iff_ne.mpr
              (fun heq => hnd.1 (heq ▸ List.mem_map.mpr ⟨e2, he2, rfl⟩)))]
          exact hpres e2 (List.mem_cons.mpr (Or.inr he2)))
        (fun e2 he2 u2 hu2 => by
          rw [pyGet?_pySet_ne users e.1 e2.1 _
            (beq_eq_false_iff_ne.mpr
              (fun heq => hnd.1 (heq ▸ List.mem_map.mpr ⟨e2, he2, rfl⟩)))] at hu2
          exact hcont e2 (List.mem_cons.mpr (Or.inr he2)) u2 hu2)
    refine ⟨users', ?_, ?_, ?_, ?_⟩
    · show unsubscribe_all_loop sname (e :: rest) users = .ok users'
      rw [show (e :: rest) = (e.1, e.2) :: rest from by rw [Prod.mk.eta],
        unsubscribe_all_loop, hu]
      show (do
          let streamers' ← pyKeyDelE u.streamers sname
          unsubscribe_all_loop sname rest
            (pySet users e.1 { u with streamers := streamers' })) = .ok users'
      rw [hdel, exc_bind_ok]
      exact hloop
    · rw [hkeys, keys_pySet_contains users e.1 _ (by simp [pyContains, hu])]
    · intro k hk
      rw [List.map_cons, List.mem_cons] at hk
      push_neg at hk
      rw [hne k hk.2,
        pyGet?_pySet_ne users e.1 k _ (beq_eq_false_iff_ne.mpr (fun heq => hk.1 heq.symm))]
    · intro k w hk hw
      rw [List.map_cons, List.mem_cons] at hk
      rcases hk with hk | hk
      · subst hk
        rw [hu] at hw
        injection hw with hw
        subst hw
        rw [hne e.1 hnd.1]
        exact pyGet?_pySet_self users e.1 _
      · have hkne : k ≠ e.1 := fun heq => hnd.1 (heq ▸ hk)
        refine hyes k w hk ?_
        rw [pyGet?_pySet_ne users e.1 k _ (beq_eq_false_iff_ne.mpr (Ne.symm hkne))]
        exact hw

lemma inv_remove_session (st : ObserverState) (name : String)
    (sess : StreamSessionState) (r : RemoveResult)
    (h : Invariant st)
    (hsess : pyGet? st.streamers name = some sess)
    (hok : remove_session st sess = .ok r) : Invariant r.state := by
  have hmemS : (name, sess) ∈ st.streamers := mem_of_pyGet? hsess
  have hSname : sess.name = name := h.sessionsKeyed (name, sess) hmemS
  have hsubsNd : (sess.subs.map (·.1)).Nodup := h.subsNodup (name, sess) hmemS
  have hpres : ∀ e ∈ sess.subs, pyContains st.users e.1 = true := by
    intro e he
    obtain ⟨u, hu, -⟩ := h.sessionToUser (name, sess) hmemS e he
    simp [pyContains, hu]
  have hcontr : ∀ e ∈ sess.subs, ∀ u, pyGet? st.users e.1 = some u →
      u.streamers.contains sess.name = true := by
    intro e he u hu
    obtain ⟨u2, hu2, hc2⟩ := h.sessionToUser (name, sess) hmemS e he
    rw [hu] at hu2
    injection hu2 with hu2
    subst hu2
    rw [hSname]
    exact hc2
  obtain ⟨users', hloop, hkeys, hne, hyes⟩ :=
    unsubscribe_all_loop_ok sess.name sess.subs st.users hsubsNd hpres hcontr
  have hcS : pyContains st.streamers sess.name = true := by
    rw [hSname]
    simp [pyContains, hsess]
  rw [remove_session, hloop, exc_bind_ok,
    show pyDelE st.streamers sess.name = .ok (pyDel st.streamers sess.name) from by
      simp [pyDelE, hcS],
    exc_bind_ok] at hok
  injection hok with hok
  subst hok
  have husers_nodup : (users'.map (·.1)).Nodup := by
    rw [hkeys]
    exact h.usersNodup
  have hlookup : ∀ p ∈ users',
      (p.1 ∈ sess.subs.map (·.1) ∧
        ∃ u, pyGet? st.users p.1 = some u ∧
          p.2 = { u with streamers := u.streamers.erase sess.name }) ∨
      (p.1 ∉ sess.subs.map (·.1) ∧ (p.1, p.2) ∈ st.users) := by
    intro p hp
    have hg' : pyGet? users' p.1 = some p.2 := pyGet?_of_mem husers_nodup hp
    by_cases hk : p.1 ∈ sess.subs.map (·.1)
    · left
      have hkeymem : p.1 ∈ st.users.map (·.1) := by
        rw [← hkeys]
        exact List.mem_map.mpr ⟨p, hp, rfl⟩
      obtain ⟨u, hu⟩ := Option.isSome_iff_exists.mp
        (by simpa [pyContains] using (pyContains_iff_mem_keys st.users p.1).mpr hkeymem)
      refine ⟨hk, u, hu, ?_⟩
      have := hyes p.1 u hk hu
      rw [hg'] at this
      injection this
    · right
      refine ⟨hk, ?_⟩
      rw [hne p.1 hk] at hg'
      exact mem_of_pyGet? hg'
  constructor
  · exact husers_nodup
  · exact nodup_keys_pyDel st.streamers sess.name h.streamersNodup
  · intro p hp
    rcases hlookup p hp with ⟨-, u, hu, hval⟩ | ⟨-, hmem⟩
    · rw [hval]
      exact h.usersKeyed (p.1, u) (mem_of_pyGet? hu)
    · exact h.usersKeyed (p.1, p.2) hmem
  · intro q hq
    exact h.sessionsKeyed q (mem_pyDel_subset hq)
  · intro p hp
    rcases hlookup p hp with ⟨-, u, hu, hval⟩ | ⟨-, hmem⟩
    · rw [hval]
      exact (h.userStreamersNodup (p.1, u) (mem_of_pyGet? hu)).erase sess.name
    · exact h.userStreamersNodup (p.1, p.2) hmem
  · intro q hq
    exact h.subsNodup q (mem_pyDel_subset hq)
  · intro p hp s hs
    rcases hlookup p hp with ⟨-, u, hu, hval⟩ | ⟨hnotin, hmem⟩
    · rw [hval] at hs
      change s ∈ u.streamers.erase sess.name at hs
      have hnd := h.userStreamersNodup (p.1, u) (mem_of_pyGet? hu)
      obtain ⟨hsne, hsold⟩ := hnd.mem_erase_iff.mp hs
      obtain ⟨sess2, hsess2, hcont2⟩ :=
        h.userToSession (p.1, u) (mem_of_pyGet? hu) s hsold
      refine ⟨sess2, ?_, ?_⟩
      · rw [pyGet?_pyDel_ne st.streamers sess.name s
            (beq_eq_false_iff_ne.mpr (Ne.symm hsne))]
        exact hsess2
      · exact hcont2
    · obtain ⟨sess2, hsess2, hcont2⟩ := h.userToSession (p.1, p.2) hmem s hs
      have hsne : s ≠ sess.name := by
        intro he
        rw [he, hSname, hsess] at hsess2
        injection hsess2 with hsess2
        rw [← hsess2] at hcont2
        exact hnotin ((pyContains_iff_mem_keys sess.subs p.1).mp hcont2)
      refine ⟨sess2, ?_, hcont2⟩
      rw [pyGet?_pyDel_ne st.streamers sess.name s
          (beq_eq_false_iff_ne.mpr (Ne.symm hsne))]
      exact hsess2
  · intro q hq e he
    have hqold := mem_pyDel_subset hq
    have hqne : (q.1 == sess.name) = false := mem_pyDel_ne h.streamersNodup hq
    obtain ⟨u, hu2, hcont2⟩ := h.sessionToUser q hqold e he
    by_cases hk : e.1 ∈ sess.subs.map (·.1)
    · refine ⟨{ u with streamers := u.streamers.erase sess.name },
        hyes e.1 u hk hu2, ?_⟩
      show (u.streamers.erase sess.name).contains q.1 = true
      exact contains_erase_of_ne hcont2 (by simpa using hqne)
    · refine ⟨u, ?_, hcont2⟩
      rw [hne e.1 hk]
      exact hu2

lemma stopall_loop_ok (uname : String) :
    ∀ (names : List String) (streamers : List (String × StreamSessionState)),
    names.Nodup →
    (streamers.map (·.1)).Nodup →
    (∀ n ∈ names, ∃ sess, pyGet? streamers n = some sess ∧
      pyContains sess.subs uname = true) →
    (∀ q ∈ streamers, (q.2.subs.map (·.1)).Nodup) →
    ∃ res, stopall_loop uname names streamers = .ok res ∧
      (res.1.map (·.1)).Nodup ∧
      (∀ k, k ∉ names → pyGet? res.1 k = pyGet? streamers k) ∧
      (∀ k sess, k ∈ names → pyGet? streamers k = some sess →
        pyGet? res.1 k = (if (pyDel sess.subs uname).isEmpty = true then none
          else some ⟨sess.name, pyDel sess.subs uname⟩)) ∧
      (∀ q ∈ res.1, ∃ q0, q0 ∈ streamers ∧ q.1 = q0.1 ∧ q.2.name = q0.2.name ∧
        (q.2.subs = q0.2.subs ∨ q.2.subs = pyDel q0.2.subs uname)) := by
  intro names
  induction names with
  | nil =>
    intro streamers _ hnd _ _
    exact ⟨(streamers, []), rfl, hnd, fun k _ => rfl,
      fun k sess hk => by simp at hk,
      fun q hq => ⟨q, hq, rfl, rfl, Or.inl rfl⟩⟩
  | cons name rest ih =>
    intro streamers hnodn hnd hsess hsubs
    rw [List.nodup_cons] at hnodn
    obtain ⟨sess, hget, hcont⟩ := hsess name (by simp)
    have hmemS : (name, sess) ∈ streamers := mem_of_pyGet? hget
    have hsessnd : (sess.subs.map (·.1)).Nodup := hsubs (name, sess) hmemS
    have hdelE : pyDelE sess.subs uname = .ok (pyDel sess.subs uname) := by
      simp [pyDelE, hcont]
    have hgetE : pyGetE streamers name = .ok sess := by simp [pyGetE, hget]
    have hdelnodup : ((pyDel sess.subs uname).map (·.1)).Nodup :=
      nodup_keys_pyDel sess.subs uname hsessnd
    by_cases hE : (pyDel sess.subs uname).isEmpty = true
    · -- this session empties out and is deleted from the registry
      obtain ⟨res, hloop, hnd', hne, hyes, hrel⟩ :=
        ih (pyDel streamers name) hnodn.2
          (nodup_keys_pyDel streamers name hnd)
          (fun n hn => by
            rw [pyGet?_pyDel_ne streamers name n
              (beq_eq_false_iff_ne.mpr (fun he => hnodn.1 (he ▸ hn)))]
            exact hsess n (List.mem_cons.mpr (Or.inr hn)))
          (fun q hq => hsubs q (mem_pyDel_subset hq))
      refine ⟨(res.1, [name] ++ res.2), ?_, hnd', ?_, ?_, ?_⟩
      · rw [stopall_loop, hgetE, exc_bind_ok, hdelE, exc_bind_ok]
        simp only [hE]
        show (do
            let stepRest ← stopall_loop uname rest (pyDel streamers name)
            Except.ok (stepRest.1, [name] ++ stepRest.2)) = _
        rw [hloop, exc_bind_ok]
      · intro k hk
        rw [List.mem_cons] at hk
        push_neg at hk
        rw [hne k hk.2,
          pyGet?_pyDel_ne streamers name k
            (beq_eq_false_iff_ne.mpr (fun he => hk.1 he.symm))]
      · intro k sess0 hk hget0
        rcases List.mem_cons.mp hk with hk | hk
        · subst hk
          rw [hget] at hget0
          injection hget0 with hget0
          subst hget0
          rw [if_pos hE, hne k hnodn.1]
          exact pyGet?_pyDel_self streamers k hnd
        · have hkne : k ≠ name := fun he => hnodn.1 (he ▸ hk)
          rw [hyes k sess0 hk (by
            rw [pyGet?_pyDel_ne streamers name k
              (beq_eq_false_iff_ne.mpr (Ne.symm hkne))]
            exact hget0)]
      · intro q hq
        obtain ⟨q0, hq0, hk, hn, hsub⟩ := hrel q hq
        exact ⟨q0, mem_pyDel_subset hq0, hk, hn, hsub⟩
    · -- subscribers remain: the session entry is updated in place
      have hE' : (pyDel sess.subs uname).isEmpty = false := by simpa using hE
      have hcS : pyContains streamers name = true := by simp [pyContains, hget]
      obtain ⟨res, hloop, hnd', hne, hyes, hrel⟩ :=
        ih (pySet streamers name ⟨sess.name, pyDel sess.subs uname⟩) hnodn.2
          (nodup_keys_pySet streamers name _ hnd)
          (fun n hn => by
            rw [pyGet?_pySet_ne streamers name n _
              (beq_eq_false_iff_ne.mpr (fun he => hnodn.1 (he ▸ hn)))]
            exact hsess n (List.mem_cons.mpr (Or.inr hn)))
          (fun q hq => by
            rcases mem_pySet q hq with rfl | ⟨hmem, _⟩
            · exact hdelnodup
            · exact hsubs q hmem)
      refine ⟨(res.1, res.2), ?_, hnd', ?_, ?_, ?_⟩
      · rw [stopall_loop, hgetE, exc_bind_ok, hdelE, exc_bind_ok]
        simp only [hE']
        show (do
            let stepRest ← stopall_loop uname rest
              (pySet streamers name ⟨sess.name, pyDel sess.subs uname⟩)
            Except.ok (stepRest.1, [] ++ stepRest.2)) = _
        rw [hloop, exc_bind_ok]
        simp
      · intro k hk
        rw [List.mem_cons] at hk
        push_neg at hk
        rw [hne k hk.2,
          pyGet?_pySet_ne streamers name k _
            (beq_eq_false_iff_ne.mpr (fun he => hk.1 he.symm))]
      · intro k sess0 hk hget0
        rcases List.mem_cons.mp hk with hk | hk
        · subst hk
          rw [hget] at hget0
          injection hget0 with hget0
          subst hget0
          rw [if_neg (by simp [hE']), hne k hnodn.1]
          exact pyGet?_pySet_self streamers k _
        · have hkne : k ≠ name := fun he => hnodn.1 (he ▸ hk)
          rw [hyes k sess0 hk (by
            rw [pyGet?_pySet_ne streamers name k _
              (beq_eq_false_iff_ne.mpr (Ne.symm hkne))]
            exact hget0)]
      · intro q hq
        obtain ⟨q0, hq0, hk, hn, hsub⟩ := hrel q hq
        rcases mem_pySet q0 hq0 with rfl | ⟨hmem, _⟩
        · refine ⟨(name, sess), hmemS, hk, ?_, ?_⟩
          · exact hn
          · have hnotc : pyContains (pyDel sess.subs uname) uname = false := by
              rw [pyContains, pyGet?_pyDel_self sess.subs uname hsessnd]
              rfl
            rcases hsub with hsub | hsub
            · exact Or.inr hsub
            · exact Or.inr (hsub.trans (pyDel_of_not_contains hnotc))
        · exact ⟨q0, hmem, hk, hn, hsub⟩

lemma inv_stopall (st : ObserverState) (uname : String) (r : StopResult)
    (h : Invariant st)
    (hok : process_stopall_command st uname = .ok r) : Invariant r.state := by
  rw [process_stopall_command] at hok
  split at hok
  · cases hok
  · rename_i user hg
    have hmemU : (uname, user) ∈ st.users := mem_of_pyGet? hg
    have hcU : pyContains st.users uname = true := by simp [pyContains, hg]
    obtain ⟨res, hloop, hnd', hne, hyes, hrel⟩ :=
      stopall_loop_ok uname user.streamers st.streamers
        (h.userStreamersNodup (uname, user) hmemU)
        h.streamersNodup
        (h.userToSession (uname, user) hmemU)
        h.subsNodup
    rw [hloop, exc_bind_ok] at hok
    injection hok with hok
    subst hok
    constructor
    · show ((pySet st.users uname _).map (·.1)).Nodup
      rw [keys_pySet_contains st.users uname _ hcU]
      exact h.usersNodup
    · exact hnd'
    · intro p hp
      rcases mem_pySet p hp with rfl | ⟨hmem, _⟩
      · exact h.usersKeyed (uname, user) hmemU
      · exact h.usersKeyed p hmem
    · intro q hq
      obtain ⟨q0, hq0, hk, hn, -⟩ := hrel q hq
      rw [hn, hk]
      exact h.sessionsKeyed q0 hq0
    · intro p hp
      rcases mem_pySet p hp with rfl | ⟨hmem, _⟩
      · exact List.nodup_nil
      · exact h.userStreamersNodup p hmem
    · intro q hq
      obtain ⟨q0, hq0, -, -, hsub⟩ := hrel q hq
      rcases hsub with hsub | hsub
      · rw [hsub]
        exact h.subsNodup q0 hq0
      · rw [hsub]
        exact nodup_keys_pyDel q0.2.subs uname (h.subsNodup q0 hq0)
    · intro p hp s hs
      rcases mem_pySet p hp with rfl | ⟨hpold, hpne⟩
      · simp at hs
      · obtain ⟨sess2, hsess2, hcont2⟩ := h.userToSession p hpold s hs
        have hp1 : p.1 ≠ uname := by simpa using hpne
        by_cases hsn : s ∈ user.streamers
        · have hcont2' : pyContains (pyDel sess2.subs uname) p.1 = true := by
            rw [pyContains_pyDel_ne sess2.subs uname p.1
              (beq_eq_false_iff_ne.mpr (Ne.symm hp1))]
            exact hcont2
          refine ⟨⟨sess2.name, pyDel sess2.subs uname⟩, ?_, hcont2'⟩
          rw [hyes s sess2 hsn hsess2,
            if_neg (by simp [not_isEmpty_of_pyContains hcont2'])]
        · refine ⟨sess2, ?_, hcont2⟩
          rw [hne s hsn]
          exact hsess2
    · intro q hq e he
      obtain ⟨q0, hq0, hk, hn, hsub⟩ := hrel q hq
      have hq0get : pyGet? st.streamers q0.1 = some q0.2 :=
        pyGet?_of_mem h.streamersNodup hq0
      have heold : e ∈ q0.2.subs := by
        rcases hsub with hsub | hsub
        · rw [← hsub]
          exact he
        · exact mem_pyDel_subset (hsub ▸ he)
      obtain ⟨u, hu2, hcont2⟩ := h.sessionToUser q0 hq0 e heold
      have heu : e.1 ≠ uname := by
        intro heq
        rw [heq, hg] at hu2
        injection hu2 with hu2
        have hq1mem : q0.1 ∈ user.streamers := by
          rw [← hu2] at hcont2
          simpa using hcont2
        have hq1get : pyGet? res.1 q.1 = some q.2 := pyGet?_of_mem hnd' hq
        rw [hk] at hq1get
        rw [hyes q0.1 q0.2 hq1mem hq0get] at hq1get
        by_cases hEq : (pyDel q0.2.subs uname).isEmpty = true
        · rw [if_pos hEq] at hq1get
          cases hq1get
        · rw [if_neg hEq] at hq1get
          injection hq1get with hq1get
          have hquname : (e.1 == uname) = false := by
            apply mem_pyDel_ne (h.subsNodup q0 hq0)
            have : q.2.subs = pyDel q0.2.subs uname := by
              rw [← hq1get]
            rw [← this]
            exact he
          rw [heq] at hquname
          simp at hquname
      refine ⟨u, ?_, ?_⟩
      · rw [pyGet?_pySet_ne st.users uname e.1 _
          (beq_eq_false_iff_ne.mpr (Ne.symm heu))]
        exact hu2
      · rw [hk]
        exact hcont2

/-- C3: in every state reachable by the registry operations (new-user
creation, Hook, Threshold, Start, Stop, StopAll, and session teardown via
unsubscribe-all), the two-sided subscription bookkeeping is consistent:
every key list (users, sessions, a user's broadcaster map, a session's
subscriber map) is duplicate-free, so a (user, session) pair has at most
one live subscription; every streamer name in a user's broadcaster map
denotes a registered session whose subscriber map contains that user; and
every subscriber entry of a registered session points back to a registered
user whose broadcaster map contains that session — neither side is ever
left dangling after an operation completes. -/
theorem c3_invariant (st : ObserverState) (h : Reachable st) : Invariant st := by
  induction h with
  | init => exact inv_init
  | newUser st name cid _ ih => exact inv_get_user st name cid ih
  | hookCmd st uname hook_name hook_str _ ih =>
    exact inv_hook st uname hook_name hook_str ih
  | thresholdCmd st uname t _ ih => exact inv_threshold st uname t ih
  | startCmd st uname streamer hook_name lookup _ ih =>
    exact inv_start st uname streamer hook_name lookup ih
  | stopCmd st uname streamer r _ hok ih => exact inv_stop st uname streamer r ih hok
  | stopAllCmd st uname r _ hok ih => exact inv_stopall st uname r ih hok
  | teardown st name sess r _ hsess hok ih =>
    exact inv_remove_session st name sess r ih hsess hok

/-- Concrete instantiation of the C3 invariant: the state reached from the
empty registry by creating the user `alice` satisfies the invariant. -/
theorem c3_invariant_witness : Invariant (get_user ⟨[], []⟩ "alice" 1).1 :=
  c3_invariant _ (Reachable.newUser ⟨[], []⟩ "alice" 1 Reachable.init)

end TwitchObserver
